import Mathlib

/-!
Verification of the multi-source search aggregation engine of MoonTVPlus
(`src/app/api/search/route.ts` and `src/app/api/search/ws/route.ts`).

Each of the two route files contains two snapshots of the endpoint separated
by a document marker; we refer to them as the first snapshot (V1: the
`runWithConcurrencyControl` batch route, and the streaming `ws` route) and
the second snapshot (V2: the `Promise.allSettled` batch route, and the
suggestions route).

The TypeScript is shallowly embedded: pure computations become Lean
functions, the async control flow of the two schedulers becomes explicit
state passing (for `runWithConcurrencyControl`, whose execution is
deterministic because at most one task promise is ever pending) and a
schedule-driven transition system (for `runWithConcurrencyLimit` and the
event-stream writer, whose behaviour depends on the interleaving of task
completions).  JavaScript exceptions/timeouts inside an adapter are
represented by `Option`/outcome types.
-/

/-! ## String helpers

`String.prototype.includes` / `toLowerCase` modelled on the character list
of the string (structural recursion, so the kernel can evaluate them). -/

/-- Check that `p` is a leading segment of `l` (helper for the substring test). -/
def leadSeg : List Char → List Char → Bool
  | [], _ => true
  | _ :: _, [] => false
  | a :: as, b :: bs => a == b && leadSeg as bs

/-- JavaScript `haystack.includes(needle)` on character lists. -/
def infixSeg (needle : List Char) : List Char → Bool
  | [] => needle.isEmpty
  | b :: bs => leadSeg needle (b :: bs) || infixSeg needle bs

/-- JavaScript `a.includes(b)`. -/
def strIncludes (a b : String) : Bool := infixSeg b.data a.data

/-- JavaScript `s.toLowerCase()` (per-character lowering). -/
def strLower (s : String) : List Char := s.data.map Char.toLower

/-- JavaScript `a.toLowerCase().includes(b)` where `b` is already lower-cased. -/
def strIncludesLowerOf (a : String) (bLower : List Char) : Bool :=
  infixSeg bLower (strLower a)

/-- JavaScript `s.split('-')[0]` for a single-character separator. -/
def splitHead (s : String) (sep : Char) : String :=
  String.mk (s.data.takeWhile (fun c => c != sep))

/-! ## Data model -/

/-- One search result item, as constructed by the three adapters
(`id`, `source`, `source_name`, `title`, `poster`, `episodes`,
`episodes_titles`, `year`, `desc`, `type_name`, `douban_id`). -/
structure ResultItem where
  id : String
  source : String
  source_name : String
  title : String
  poster : String
  episodes : List String
  episodes_titles : List String
  year : String
  desc : String
  type_name : String
  douban_id : Nat
deriving Repr, DecidableEq

/-- The uniform per-task return value of the V1 batch route:
`{ source, sourceName, results }`. -/
structure Batch where
  source : String
  sourceName : String
  results : List ResultItem
deriving Repr, DecidableEq

/-- A content-API site from `getAvailableApiSites` (`key`, `name`). -/
structure Site where
  key : String
  name : String
deriving Repr, DecidableEq

/-- One entry of `config.SourceConfig` (`key`, optional `weight`). -/
structure SourceCfg where
  key : String
  weight : Option Int
deriving Repr, DecidableEq

/-! ## Weight map and the stable descending sort

`weightMap` is a `Map` filled by `weightMap.set(source.key, source.weight ?? 0)`
over `config.SourceConfig` (later entries overwrite earlier ones), and read
with `weightMap.get(src) ?? 0`. -/

/-- The weight lookup `weightMap.get(k) ?? 0` for the map built from
`config.SourceConfig` by `weightMap.set(source.key, source.weight ?? 0)`. -/
def weightOf (sourceConfig : List SourceCfg) (k : String) : Int :=
  (sourceConfig.foldl
    (fun m s => fun key => if key = s.key then s.weight.getD 0 else m key)
    (fun _ => (0 : Int))) k

/-- Insert step of the stable descending sort: an already-placed item `b`
stays in front of `a` exactly when its weight is strictly larger. -/
def insertByWeight (w : String → Int) (a : ResultItem) :
    List ResultItem → List ResultItem
  | [] => [a]
  | b :: l => if w a.source < w b.source then b :: insertByWeight w a l
              else a :: b :: l

/-- The merger's sort `results.sort((a, b) => weightB - weightA)`.
`Array.prototype.sort` is guaranteed stable by the ECMAScript specification
and the comparator is consistent, so the result is the unique stable
descending-by-weight ordering; it is embedded as a stable insertion sort. -/
def sortByWeightDesc (w : String → Int) (l : List ResultItem) : List ResultItem :=
  l.foldr (insertByWeight w) []

/-! ## Content filter

`yellowWords` comes from `@/lib/yellow`, which the specification classifies
as an external collaborator ("Content filtering word-lists"), so the word
list is a parameter of the model. -/

/-- One item passes the filter when its `type_name` (`|| ''` for a missing
field) contains none of the configured words:
`!yellowWords.some((word) => typeName.includes(word))`. -/
def passesYellowFilter (yellow : List String) (r : ResultItem) : Bool :=
  ! yellow.any (fun word => strIncludes r.type_name word)

/-- The filter stage: identity when `DisableYellowFilter` is set. -/
def applyYellowFilter (disable : Bool) (yellow : List String)
    (l : List ResultItem) : List ResultItem :=
  if disable then l else l.filter (passesYellowFilter yellow)

/-! ## The V1 batch scheduler `runWithConcurrencyControl`

`startNext` is an `async` arrow function; its `while` loop awaits each task
before the next loop round, and the only other entries into `startNext`
(the recursive call in `finally` and the 10 ms polling loop) run strictly
after the awaited task settles.  Hence at most one task promise is ever
pending and the whole execution is deterministic; the embedding therefore
reads each awaited outcome directly.  Task `i`'s behaviour is its outcome:
`some v` (the promise fulfils with `v`) or `none` (it rejects / times out,
the `catch` stores `undefined`, here `none`, at `results[taskIndex]`). -/

/-- A scheduling instant: task `i` starts running / finishes (fulfils or
rejects). -/
inductive SchedEv
  | start (i : Nat)
  | finish (i : Nat)
deriving Repr, DecidableEq

/-- The mutable state of `runWithConcurrencyControl` (`results`, `index`,
`running`, `completed`), extended with the trace of start/finish instants. -/
structure CCState (α : Type) where
  results : List (Option α)
  index : Nat
  running : Nat
  completed : Nat
  trace : List SchedEv
deriving Repr

/-- The `startNext` loop.  The fuel argument only bounds the recursion
depth; `tasks.length + 1` is always enough (proved below), so no behaviour
is cut off. -/
def startNextF {α : Type} (tasks : List (Option α)) (limit : Nat) :
    Nat → CCState α → CCState α
  | 0, s => s
  | fuel + 1, s =>
    if s.running < limit ∧ s.index < tasks.length then
      -- const taskIndex = index++; const task = tasks[taskIndex]; running++;
      let taskIndex := s.index
      let s1 : CCState α :=
        { s with index := s.index + 1, running := s.running + 1,
                 trace := s.trace ++ [SchedEv.start taskIndex] }
      -- const result = await task();  results[taskIndex] = result;
      -- (catch: results[taskIndex] = undefined)
      let outcome := (tasks[taskIndex]?).join
      -- finally { running--; completed++; onProgress?.(completed, total); }
      let s2 : CCState α :=
        { s1 with results := s1.results.set taskIndex outcome,
                  running := s1.running - 1,
                  completed := s1.completed + 1,
                  trace := s1.trace ++ [SchedEv.finish taskIndex] }
      -- await startNext()  (inside finally), then the next while iteration
      startNextF tasks limit fuel (startNextF tasks limit fuel s2)
    else s

/-- `runWithConcurrencyControl(tasks, limit)`: run `startNext`, then the
`while (completed < total)` polling loop, then
`results.filter((r) => r !== undefined)`.  When the first `startNext` pass
leaves `completed < total` (only possible for `limit = 0`), every further
`startNext()` call from the polling loop is the identity, so the real code
polls forever; this divergence is returned as `none`. -/
def runWithConcurrencyControl {α : Type} (tasks : List (Option α))
    (limit : Nat) : Option (List α × List SchedEv) :=
  let s := startNextF tasks limit (tasks.length + 1)
    ⟨List.replicate tasks.length none, 0, 0, 0, []⟩
  if s.completed < tasks.length then none
  else some (s.results.filterMap id, s.trace)

/-- The trace `[start i, finish i, start (i+1), finish (i+1), ...]` of `k`
consecutive tasks beginning at `i`. -/
def pairTraceAux : Nat → Nat → List SchedEv
  | 0, _ => []
  | k + 1, i => SchedEv.start i :: SchedEv.finish i :: pairTraceAux k (i + 1)

/-- Trace of tasks `i, i+1, ..., n-1` run strictly one after another. -/
def pairTrace (i n : Nat) : List SchedEv := pairTraceAux (n - i) i

/-- Writing `results[j] = tasks[j]` for the `k` slots starting at `j = i`. -/
def writeFromAux {α : Type} (tasks : List (Option α)) :
    Nat → Nat → List (Option α) → List (Option α)
  | 0, _, res => res
  | k + 1, i, res => writeFromAux tasks k (i + 1) (res.set i (tasks[i]?).join)

/-- The number of concurrently running tasks at the worst instant of a
trace (`cur` = currently running, `best` = maximum seen so far). -/
def maxRunningAux : Nat → Nat → List SchedEv → Nat
  | _, best, [] => best
  | cur, best, SchedEv.start _ :: tr => maxRunningAux (cur + 1) (max best (cur + 1)) tr
  | cur, best, SchedEv.finish _ :: tr => maxRunningAux (cur - 1) best tr

/-- Maximum number of tasks simultaneously running at any instant of a trace. -/
def maxRunning (tr : List SchedEv) : Nat := maxRunningAux 0 0 tr

lemma startNextF_done {α : Type} (tasks : List (Option α)) (limit : Nat) :
    ∀ fuel (s : CCState α), tasks.length ≤ s.index →
      startNextF tasks limit fuel s = s := by
  intro fuel s h
  cases fuel with
  | zero => rfl
  | succ fuel =>
    have hc : ¬(s.running < limit ∧ s.index < tasks.length) := by
      rintro ⟨-, hlt⟩
      omega
    simp only [startNextF, if_neg hc]

lemma startNextF_run {α : Type} (tasks : List (Option α)) (limit : Nat)
    (hl : 1 ≤ limit) :
    ∀ fuel (s : CCState α), s.running = 0 → s.index ≤ tasks.length →
      tasks.length - s.index < fuel →
      startNextF tasks limit fuel s =
        { results := writeFromAux tasks (tasks.length - s.index) s.index s.results,
          index := tasks.length,
          running := 0,
          completed := s.completed + (tasks.length - s.index),
          trace := s.trace ++ pairTrace s.index tasks.length } := by
  intro fuel
  induction fuel with
  | zero => intro s _ _ h; omega
  | succ fuel ih =>
    intro s hrun hle hfuel
    by_cases hidx : s.index < tasks.length
    · have hcond : s.running < limit ∧ s.index < tasks.length := ⟨by omega, hidx⟩
      simp only [startNextF, if_pos hcond]
      have hk : tasks.length - s.index = (tasks.length - (s.index + 1)) + 1 := by omega
      have hinner := ih
        { results := s.results.set s.index (tasks[s.index]?).join,
          index := s.index + 1,
          running := s.running + 1 - 1,
          completed := s.completed + 1,
          trace := (s.trace ++ [SchedEv.start s.index]) ++ [SchedEv.finish s.index] }
        (by show s.running + 1 - 1 = 0; omega)
        (by show s.index + 1 ≤ tasks.length; omega)
        (by show tasks.length - (s.index + 1) < fuel; omega)
      dsimp only at hinner
      rw [hinner, startNextF_done tasks limit fuel _ (by simp)]
      have htr : pairTrace s.index tasks.length =
          SchedEv.start s.index :: SchedEv.finish s.index ::
            pairTrace (s.index + 1) tasks.length := by
        unfold pairTrace
        rw [hk]
        rfl
      congr 1
      · rw [hk]
        rfl
      · omega
      · rw [htr]
        simp
    · have hidx' : s.index = tasks.length := by omega
      rw [startNextF_done tasks limit _ _ (le_of_eq hidx'.symm)]
      cases s with
      | mk results index running completed trace =>
        simp only at hrun hidx'
        subst hrun
        subst hidx'
        simp [pairTrace, writeFromAux, pairTraceAux, Nat.sub_self]

lemma writeFromAux_eq {α : Type} (tasks : List (Option α)) :
    ∀ (k i : Nat) (res : List (Option α)), i + k = tasks.length →
      res.length = tasks.length →
      writeFromAux tasks k i res = res.take i ++ tasks.drop i := by
  intro k
  induction k with
  | zero =>
    intro i res hik hlen
    have hi : i = tasks.length := by omega
    subst hi
    simp [writeFromAux, List.take_of_length_le (le_of_eq hlen)]
  | succ k ih =>
    intro i res hik hlen
    have hi : i < tasks.length := by omega
    have hires : i < res.length := by omega
    have hjoin : (tasks[i]?).join = tasks[i] := by
      rw [List.getElem?_eq_getElem hi]
      rfl
    rw [writeFromAux, ih (i + 1) _ (by omega) (by simpa using hlen)]
    rw [List.set_eq_take_append_cons_drop, if_pos hires, hjoin]
    rw [List.drop_eq_getElem_cons hi]
    have htk : (res.take i).length = i := by
      simp [hires.le]
    rw [List.take_append_eq_append_take, htk,
        List.take_of_length_le (by omega : (res.take i).length ≤ i + 1)]
    simp

/-- Full characterisation of the V1 scheduler for any `limit ≥ 1`: it
terminates, stores each task's outcome at its submission index, drops the
`undefined` slots of rejected tasks, and its trace runs the tasks strictly
one after another in submission order. -/
lemma runWithConcurrencyControl_eq {α : Type} (tasks : List (Option α))
    (limit : Nat) (hl : 1 ≤ limit) :
    runWithConcurrencyControl tasks limit =
      some (tasks.filterMap id, pairTrace 0 tasks.length) := by
  have h := startNextF_run tasks limit hl (tasks.length + 1)
    ⟨List.replicate tasks.length none, 0, 0, 0, []⟩ rfl (Nat.zero_le _) (by omega)
  unfold runWithConcurrencyControl
  rw [h]
  dsimp only
  rw [if_neg (by omega),
      writeFromAux_eq tasks _ 0 _ (by omega) (by simp)]
  simp

lemma count_start_pairTraceAux : ∀ (k i j : Nat),
    (pairTraceAux k i).count (SchedEv.start j) =
      if i ≤ j ∧ j < i + k then 1 else 0 := by
  intro k
  induction k with
  | zero =>
    intro i j
    rw [if_neg (by omega)]
    rfl
  | succ k ih =>
    intro i j
    simp only [pairTraceAux, List.count_cons, ih (i + 1) j, beq_iff_eq]
    by_cases h : j = i
    · subst h
      rw [if_neg (by omega)]
      simp
    · simp [h]
      split_ifs <;> omega

lemma mem_finish_pairTraceAux : ∀ (k i j : Nat),
    SchedEv.finish j ∈ pairTraceAux k i ↔ i ≤ j ∧ j < i + k := by
  intro k
  induction k with
  | zero =>
    intro i j
    simp [pairTraceAux]
  | succ k ih =>
    intro i j
    simp [pairTraceAux, ih (i + 1) j]
    omega

lemma maxRunningAux_pairTraceAux : ∀ (k i best : Nat),
    maxRunningAux 0 best (pairTraceAux k i) = if k = 0 then best else max best 1 := by
  intro k
  induction k with
  | zero => intro i best; rfl
  | succ k ih =>
    intro i best
    simp only [pairTraceAux, maxRunningAux]
    rw [ih (i + 1) (max best (0 + 1))]
    by_cases h : k = 0 <;> simp [h, Nat.max_assoc]

/-- The V1 scheduler's trace never has two tasks running at the same
instant: the tasks are in fact executed strictly sequentially. -/
lemma maxRunning_pairTrace (n : Nat) : maxRunning (pairTrace 0 n) ≤ 1 := by
  unfold maxRunning pairTrace
  rw [maxRunningAux_pairTraceAux]
  split_ifs <;> simp

/-! ## The streaming scheduler `runWithConcurrencyLimit` (ws route)

Here wrapper bodies and awaited tasks genuinely overlap, so the model is a
transition system driven by an explicit schedule.  One detail of the source
is crucial: settled promises are never removed from the `executing` array,
and `Promise.race(executing)` resolves as soon as ANY member of the array
is settled -- including members that settled before the race began.

State fields mirror the source: `pushed` = number of wrapper promises
pushed into `executing`; `microQ` = wrapper bodies scheduled by
`Promise.resolve().then(...)` but not yet run (FIFO); `runningTasks` = ids
whose `task()` promise is pending; `settledWrappers` = ids of settled
wrapper promises; `startedTasks` = ids whose `task()` has been invoked;
`raceOver = some m` = the `for` loop is suspended on `Promise.race` of the
first `m` wrappers; `returned` = `Promise.allSettled(executing)` resolved;
`closed` / `expired` = `streamClosed` / `isTimeExceeded()` as observed by
wrapper bodies.  The schedule choices are a superset of the real
event-loop interleavings, so invariants proved over all schedules hold of
the real code; the concrete violation schedule below follows the real
microtask ordering exactly. -/

structure LimState where
  pushed : Nat
  microQ : List Nat
  runningTasks : List Nat
  settledWrappers : List Nat
  startedTasks : List Nat
  raceOver : Option Nat
  returned : Bool
  closed : Bool
  expired : Bool
deriving Repr, DecidableEq

/-- Schedule actions for the `runWithConcurrencyLimit` event loop. -/
inductive LimAct
  | mainStep
  | runWrapper
  | taskDone (i : Nat)
  | raceResolved
  | setClosed
  | setExpired
deriving Repr, DecidableEq

/-- Initial state: nothing pushed, nothing scheduled, stream open. -/
def limInit : LimState := ⟨0, [], [], [], [], none, false, false, false⟩

/-- One event-loop step of `runWithConcurrencyLimit` under the given
action; an action that is not enabled leaves the state unchanged. -/
def limStep (n limit : Nat) (s : LimState) : LimAct → LimState
  | LimAct.mainStep =>
    -- one round of `for (const task of tasks)`, or the final
    -- `await Promise.allSettled(executing)`
    if s.raceOver.isSome ∨ s.returned then s
    else if s.pushed < n then
      -- executing.push(p) schedules wrapper body `s.pushed`;
      -- if (executing.length >= limit) await Promise.race(executing)
      { s with pushed := s.pushed + 1,
               microQ := s.microQ ++ [s.pushed],
               raceOver := if limit ≤ s.pushed + 1 then some (s.pushed + 1)
                           else none }
    else if s.settledWrappers.length = n then { s with returned := true }
    else s
  | LimAct.runWrapper =>
    -- the oldest scheduled wrapper body runs:
    -- if (streamClosed || isTimeExceeded()) return;  try { await task() } ...
    match s.microQ with
    | [] => s
    | i :: rest =>
      if s.closed ∨ s.expired then
        { s with microQ := rest,
                 settledWrappers := s.settledWrappers ++ [i] }
      else
        { s with microQ := rest,
                 startedTasks := s.startedTasks ++ [i],
                 runningTasks := s.runningTasks ++ [i] }
  | LimAct.taskDone i =>
    -- task i's promise settles (fulfils, or rejects and the wrapper's
    -- catch swallows it), so wrapper promise i settles
    if i ∈ s.runningTasks then
      { s with runningTasks := s.runningTasks.erase i,
               settledWrappers := s.settledWrappers ++ [i] }
    else s
  | LimAct.raceResolved =>
    match s.raceOver with
    | none => s
    | some m =>
      if s.settledWrappers.any (fun j => decide (j < m)) then
        { s with raceOver := none }
      else s
  | LimAct.setClosed => { s with closed := true }
  | LimAct.setExpired => { s with expired := true }

/-- Run the scheduler model under a schedule. -/
def limRun (n limit : Nat) (acts : List LimAct) : LimState :=
  acts.foldl (limStep n limit) limInit

/-- A real event-loop interleaving for 5 tasks under limit 3: tasks 0..2
are pushed and started, task 0 finishes quickly, and each subsequent
`Promise.race(executing)` resolves immediately because settled wrapper 0 is
still in `executing`, so tasks 3 and 4 are started while 1 and 2 still run. -/
def limViolationSchedule : List LimAct :=
  [LimAct.mainStep, LimAct.mainStep, LimAct.mainStep,
   LimAct.runWrapper, LimAct.runWrapper, LimAct.runWrapper,
   LimAct.taskDone 0, LimAct.raceResolved,
   LimAct.mainStep, LimAct.runWrapper, LimAct.raceResolved,
   LimAct.mainStep, LimAct.runWrapper]

lemma limStep_closed_flag (n limit : Nat) (s : LimState) (a : LimAct)
    (h : s.closed = true) : (limStep n limit s a).closed = true := by
  cases a with
  | mainStep =>
    simp only [limStep]
    split_ifs <;> simp [h]
  | runWrapper =>
    cases hq : s.microQ with
    | nil => simpa [limStep, hq] using h
    | cons i rest => simp [limStep, hq, h]
  | taskDone i =>
    simp only [limStep]
    split_ifs <;> simp [h]
  | raceResolved =>
    cases hr : s.raceOver with
    | none => simpa [limStep, hr] using h
    | some m =>
      simp only [limStep, hr]
      split_ifs <;> simp [h]
  | setClosed => simp [limStep]
  | setExpired => simp [limStep, h]

lemma limStep_expired_flag (n limit : Nat) (s : LimState) (a : LimAct)
    (h : s.expired = true) : (limStep n limit s a).expired = true := by
  cases a with
  | mainStep =>
    simp only [limStep]
    split_ifs <;> simp [h]
  | runWrapper =>
    cases hq : s.microQ with
    | nil => simpa [limStep, hq] using h
    | cons i rest => simp [limStep, hq, h]
  | taskDone i =>
    simp only [limStep]
    split_ifs <;> simp [h]
  | raceResolved =>
    cases hr : s.raceOver with
    | none => simpa [limStep, hr] using h
    | some m =>
      simp only [limStep, hr]
      split_ifs <;> simp [h]
  | setClosed => simp [limStep, h]
  | setExpired => simp [limStep]

/-- The wrapper body checks `streamClosed || isTimeExceeded()` before
calling `task()`, so a step taken from a closed or expired state invokes no
new task. -/
lemma limStep_no_start (n limit : Nat) (s : LimState) (a : LimAct)
    (h : s.closed = true ∨ s.expired = true) :
    (limStep n limit s a).startedTasks = s.startedTasks := by
  have hcond : (s.closed ∨ s.expired) = True := by
    rcases h with h | h <;> simp [h]
  cases a with
  | mainStep =>
    simp only [limStep]
    split_ifs <;> rfl
  | runWrapper =>
    cases hq : s.microQ with
    | nil => simp [limStep, hq]
    | cons i rest => simp [limStep, hq, hcond]
  | taskDone i =>
    simp only [limStep]
    split_ifs <;> rfl
  | raceResolved =>
    cases hr : s.raceOver with
    | none => simp [limStep, hr]
    | some m =>
      simp only [limStep, hr]
      split_ifs <;> rfl
  | setClosed => rfl
  | setExpired => rfl

/-- Once `streamClosed` is observed, no schedule continuation ever starts
another task. -/
lemma limRun_no_start_after_closed (n limit : Nat) :
    ∀ (acts : List LimAct) (s : LimState), s.closed = true →
      (acts.foldl (limStep n limit) s).startedTasks = s.startedTasks := by
  intro acts
  induction acts with
  | nil => intro s _; rfl
  | cons a acts ih =>
    intro s h
    rw [List.foldl_cons, ih _ (limStep_closed_flag n limit s a h),
        limStep_no_start n limit s a (Or.inl h)]

/-- Once the global deadline is exceeded, no schedule continuation ever
starts another task. -/
lemma limRun_no_start_after_expired (n limit : Nat) :
    ∀ (acts : List LimAct) (s : LimState), s.expired = true →
      (acts.foldl (limStep n limit) s).startedTasks = s.startedTasks := by
  intro acts
  induction acts with
  | nil => intro s _; rfl
  | cons a acts ih =>
    intro s h
    rw [List.foldl_cons, ih _ (limStep_expired_flag n limit s a h),
        limStep_no_start n limit s a (Or.inr h)]

/-- Bookkeeping invariant of the streaming scheduler: scheduled-but-not-run
wrapper bodies and already-invoked tasks are pairwise distinct and all
below the push cursor, so no task is ever started twice. -/
def LimNodup (s : LimState) : Prop :=
  (s.microQ ++ s.startedTasks).Nodup ∧
  ∀ i ∈ s.microQ ++ s.startedTasks, i < s.pushed

lemma limStep_nodup (n limit : Nat) (s : LimState) (a : LimAct)
    (h : LimNodup s) : LimNodup (limStep n limit s a) := by
  obtain ⟨hnd, hlt⟩ := h
  cases a with
  | mainStep =>
    by_cases h1 : s.raceOver.isSome = true ∨ s.returned = true
    · simp only [limStep, if_pos h1]
      exact ⟨hnd, hlt⟩
    · by_cases h2 : s.pushed < n
      · simp only [limStep, if_neg h1, if_pos h2]
        refine ⟨?_, ?_⟩
        · show (s.microQ ++ [s.pushed] ++ s.startedTasks).Nodup
          rw [List.append_assoc, List.singleton_append, List.nodup_middle,
              List.nodup_cons]
          exact ⟨fun hmem => absurd (hlt _ hmem) (by omega), hnd⟩
        · show ∀ i ∈ s.microQ ++ [s.pushed] ++ s.startedTasks, i < s.pushed + 1
          intro i hi
          rw [List.append_assoc, List.singleton_append] at hi
          rcases List.mem_append.mp hi with hi | hi
          · have := hlt i (List.mem_append.mpr (Or.inl hi))
            omega
          · rcases List.mem_cons.mp hi with rfl | hi
            · omega
            · have := hlt i (List.mem_append.mpr (Or.inr hi))
              omega
      · by_cases h3 : s.settledWrappers.length = n
        · simp only [limStep, if_neg h1, if_neg h2, if_pos h3]
          exact ⟨hnd, hlt⟩
        · simp only [limStep, if_neg h1, if_neg h2, if_neg h3]
          exact ⟨hnd, hlt⟩
  | runWrapper =>
    cases hq : s.microQ with
    | nil =>
      simp only [limStep, hq]
      exact ⟨hnd, hlt⟩
    | cons i rest =>
      rw [hq] at hnd hlt
      rw [List.cons_append, List.nodup_cons] at hnd
      by_cases hflag : s.closed = true ∨ s.expired = true
      · simp only [limStep, hq, if_pos hflag]
        refine ⟨hnd.2, fun j hj => hlt j ?_⟩
        rw [List.cons_append]
        exact List.mem_cons_of_mem _ hj
      · simp only [limStep, hq, if_neg hflag]
        refine ⟨?_, ?_⟩
        · show (rest ++ (s.startedTasks ++ [i])).Nodup
          rw [← List.append_assoc]
          exact ((List.perm_append_singleton i
            (rest ++ s.startedTasks)).nodup_iff).mpr (List.nodup_cons.mpr hnd)
        · show ∀ j ∈ rest ++ (s.startedTasks ++ [i]), j < s.pushed
          intro j hj
          refine hlt j ?_
          rw [List.cons_append]
          rcases List.mem_append.mp hj with hj | hj
          · exact List.mem_cons_of_mem _ (List.mem_append.mpr (Or.inl hj))
          · rcases List.mem_append.mp hj with hj | hj
            · exact List.mem_cons_of_mem _ (List.mem_append.mpr (Or.inr hj))
            · rcases List.mem_singleton.mp hj with rfl
              exact List.mem_cons_self _ _
  | taskDone i =>
    by_cases hi : i ∈ s.runningTasks
    · simp only [limStep, if_pos hi]
      exact ⟨hnd, hlt⟩
    · simp only [limStep, if_neg hi]
      exact ⟨hnd, hlt⟩
  | raceResolved =>
    cases hr : s.raceOver with
    | none =>
      simp only [limStep, hr]
      exact ⟨hnd, hlt⟩
    | some m =>
      by_cases hs : s.settledWrappers.any (fun j => decide (j < m)) = true
      · simp only [limStep, hr, if_pos hs]
        exact ⟨hnd, hlt⟩
      · simp only [limStep, hr, if_neg hs]
        exact ⟨hnd, hlt⟩
  | setClosed => exact ⟨hnd, hlt⟩
  | setExpired => exact ⟨hnd, hlt⟩

lemma limRun_nodup_from (n limit : Nat) :
    ∀ (acts : List LimAct) (s : LimState), LimNodup s →
      LimNodup (acts.foldl (limStep n limit) s) := by
  intro acts
  induction acts with
  | nil => intro s h; exact h
  | cons a acts ih =>
    intro s h
    exact ih _ (limStep_nodup n limit s a h)

/-- In every schedule of the streaming scheduler, each task is started at
most once. -/
lemma limRun_nodup (n limit : Nat) (acts : List LimAct) :
    LimNodup (limRun n limit acts) :=
  limRun_nodup_from n limit acts limInit
    ⟨by simp [limInit], by simp [limInit]⟩

/-- Progress invariant of the streaming scheduler for runs in which the
stream is never closed and the deadline never fires: every pushed wrapper
is scheduled, running or settled; a wrapper settles only after its task was
invoked; and `Promise.allSettled` resolves only once all `n` wrappers have
settled. -/
def LimInv (n : Nat) (s : LimState) : Prop :=
  s.closed = false ∧ s.expired = false ∧
  s.microQ.length + s.runningTasks.length + s.settledWrappers.length = s.pushed ∧
  s.pushed ≤ n ∧
  (∀ i, i < s.pushed → i ∈ s.microQ ∨ i ∈ s.runningTasks ∨ i ∈ s.settledWrappers) ∧
  (∀ i ∈ s.runningTasks, i ∈ s.startedTasks) ∧
  (∀ i ∈ s.settledWrappers, i ∈ s.startedTasks) ∧
  (s.returned = true → s.settledWrappers.length = n ∧ s.pushed = n)

lemma limStep_inv (n limit : Nat) (s : LimState) (a : LimAct)
    (ha : a ≠ LimAct.setClosed ∧ a ≠ LimAct.setExpired)
    (h : LimInv n s) : LimInv n (limStep n limit s a) := by
  obtain ⟨hcl, hex, hlen, hpn, hcov, hrs, hss, hret⟩ := h
  cases a with
  | mainStep =>
    by_cases h1 : s.raceOver.isSome = true ∨ s.returned = true
    · simp only [limStep, if_pos h1]
      exact ⟨hcl, hex, hlen, hpn, hcov, hrs, hss, hret⟩
    · have hret0 : s.returned = false := by
        cases hr : s.returned
        · rfl
        · exact absurd (Or.inr hr) h1
      by_cases h2 : s.pushed < n
      · simp only [limStep, if_neg h1, if_pos h2]
        refine ⟨hcl, hex, ?_, by dsimp only; omega, ?_, hrs, hss, ?_⟩
        · show (s.microQ ++ [s.pushed]).length + _ + _ = s.pushed + 1
          simp only [List.length_append, List.length_singleton]
          omega
        · intro i hi
          dsimp only at hi
          by_cases hip : i < s.pushed
          · rcases hcov i hip with hc | hc | hc
            · exact Or.inl (List.mem_append.mpr (Or.inl hc))
            · exact Or.inr (Or.inl hc)
            · exact Or.inr (Or.inr hc)
          · have : i = s.pushed := by omega
            subst this
            exact Or.inl (List.mem_append.mpr (Or.inr (List.mem_singleton.mpr rfl)))
        · show s.returned = true → _
          rw [hret0]
          intro hcontra
          exact absurd hcontra (by simp)
      · by_cases h3 : s.settledWrappers.length = n
        · simp only [limStep, if_neg h1, if_neg h2, if_pos h3]
          exact ⟨hcl, hex, hlen, hpn, hcov, hrs, hss,
            fun _ => ⟨h3, by dsimp only; omega⟩⟩
        · simp only [limStep, if_neg h1, if_neg h2, if_neg h3]
          exact ⟨hcl, hex, hlen, hpn, hcov, hrs, hss, hret⟩
  | runWrapper =>
    cases hq : s.microQ with
    | nil =>
      simp only [limStep, hq]
      exact ⟨hcl, hex, hlen, hpn, hcov, hrs, hss, hret⟩
    | cons i rest =>
      have hflag : ¬(s.closed = true ∨ s.expired = true) := by
        rw [hcl, hex]
        simp
      simp only [limStep, hq, if_neg hflag]
      rw [hq] at hlen hcov
      refine ⟨hcl, hex, ?_, hpn, ?_, ?_, ?_, ?_⟩
      · show rest.length + (s.runningTasks ++ [i]).length +
            s.settledWrappers.length = s.pushed
        simp only [List.length_append, List.length_cons, List.length_singleton,
          List.length_nil] at hlen ⊢
        omega
      · intro j hj
        rcases hcov j hj with hc | hc | hc
        · rcases List.mem_cons.mp hc with rfl | hc
          · exact Or.inr (Or.inl (List.mem_append.mpr (Or.inr (List.mem_singleton.mpr rfl))))
          · exact Or.inl hc
        · exact Or.inr (Or.inl (List.mem_append.mpr (Or.inl hc)))
        · exact Or.inr (Or.inr hc)
      · intro j hj
        rcases List.mem_append.mp hj with hj | hj
        · exact List.mem_append.mpr (Or.inl (hrs j hj))
        · exact List.mem_append.mpr (Or.inr hj)
      · intro j hj
        exact List.mem_append.mpr (Or.inl (hss j hj))
      · intro hr
        exact hret hr
  | taskDone i =>
    by_cases hi : i ∈ s.runningTasks
    · simp only [limStep, if_pos hi]
      have hrlen : 0 < s.runningTasks.length := List.length_pos_of_mem hi
      refine ⟨hcl, hex, ?_, hpn, ?_, ?_, ?_, ?_⟩
      · show s.microQ.length + (s.runningTasks.erase i).length +
            (s.settledWrappers ++ [i]).length = s.pushed
        rw [List.length_erase_of_mem hi]
        simp only [List.length_append, List.length_singleton]
        omega
      · intro j hj
        rcases hcov j hj with hc | hc | hc
        · exact Or.inl hc
        · by_cases hji : j = i
          · subst hji
            exact Or.inr (Or.inr (List.mem_append.mpr (Or.inr (List.mem_singleton.mpr rfl))))
          · exact Or.inr (Or.inl ((List.mem_erase_of_ne hji).mpr hc))
        · exact Or.inr (Or.inr (List.mem_append.mpr (Or.inl hc)))
      · intro j hj
        exact hrs j (List.mem_of_mem_erase hj)
      · intro j hj
        rcases List.mem_append.mp hj with hj | hj
        · exact hss j hj
        · rcases List.mem_singleton.mp hj with rfl
          exact hrs j hi
      · intro hr
        obtain ⟨hsl, hpu⟩ := hret hr
        have : s.runningTasks.length = 0 := by omega
        rw [List.length_eq_zero] at this
        rw [this] at hi
        exact absurd hi (List.not_mem_nil i)
    · simp only [limStep, if_neg hi]
      exact ⟨hcl, hex, hlen, hpn, hcov, hrs, hss, hret⟩
  | raceResolved =>
    cases hr : s.raceOver with
    | none =>
      simp only [limStep, hr]
      exact ⟨hcl, hex, hlen, hpn, hcov, hrs, hss, hret⟩
    | some m =>
      by_cases hs : s.settledWrappers.any (fun j => decide (j < m)) = true
      · simp only [limStep, hr, if_pos hs]
        exact ⟨hcl, hex, hlen, hpn, hcov, hrs, hss, hret⟩
      · simp only [limStep, hr, if_neg hs]
        exact ⟨hcl, hex, hlen, hpn, hcov, hrs, hss, hret⟩
  | setClosed => exact absurd rfl ha.1
  | setExpired => exact absurd rfl ha.2

lemma limRun_inv_from (n limit : Nat) :
    ∀ (acts : List LimAct) (s : LimState),
      (∀ a ∈ acts, a ≠ LimAct.setClosed ∧ a ≠ LimAct.setExpired) →
      LimInv n s → LimInv n (acts.foldl (limStep n limit) s) := by
  intro acts
  induction acts with
  | nil => intro s _ h; exact h
  | cons a acts ih =>
    intro s hnf h
    exact ih _ (fun b hb => hnf b (List.mem_cons_of_mem a hb))
      (limStep_inv n limit s a (hnf a (List.mem_cons_self a acts)) h)

/-- For every schedule of the streaming scheduler in which the stream is
never closed and the deadline never fires, the scheduler keeps the `LimInv`
bookkeeping. -/
lemma limRun_inv (n limit : Nat) (acts : List LimAct)
    (hnf : ∀ a ∈ acts, a ≠ LimAct.setClosed ∧ a ≠ LimAct.setExpired) :
    LimInv n (limRun n limit acts) :=
  limRun_inv_from n limit acts limInit hnf
    ⟨rfl, rfl, rfl, Nat.zero_le n,
     fun i hi => absurd hi (by show ¬i < 0; omega),
     fun i hi => absurd hi (List.not_mem_nil i),
     fun i hi => absurd hi (List.not_mem_nil i),
     fun h => absurd h (by simp [limInit])⟩

/-- If a never-closed, never-expired schedule reaches the point where
`runWithConcurrencyLimit` returns, then every one of the `n` tasks was
started and has completed. -/
lemma limRun_returned_complete (n limit : Nat) (acts : List LimAct)
    (hnf : ∀ a ∈ acts, a ≠ LimAct.setClosed ∧ a ≠ LimAct.setExpired)
    (hret : (limRun n limit acts).returned = true) :
    (∀ i, i < n → i ∈ (limRun n limit acts).startedTasks) ∧
    (limRun n limit acts).runningTasks = [] ∧
    (limRun n limit acts).microQ = [] := by
  obtain ⟨-, -, hlen, -, hcov, -, hss, hretc⟩ := limRun_inv n limit acts hnf
  obtain ⟨hsl, hpu⟩ := hretc hret
  have hmq : (limRun n limit acts).microQ = [] := by
    rw [← List.length_eq_zero]
    omega
  have hrt : (limRun n limit acts).runningTasks = [] := by
    rw [← List.length_eq_zero]
    omega
  refine ⟨?_, hrt, hmq⟩
  intro i hi
  rcases hcov i (by omega) with hc | hc | hc
  · rw [hmq] at hc
    exact absurd hc (List.not_mem_nil i)
  · rw [hrt] at hc
    exact absurd hc (List.not_mem_nil i)
  · exact hss i hc

/-! ## The streaming event writer (ws route)

Each task's completion handler (the code after its `await`) runs
atomically on the event loop, so a run of the stream is the `start` event
followed by the per-completion blocks processed in completion order,
interleaved with environment actions (consumer disconnect, controller
breakdown, deadline expiry).  The handlers mirror the source exactly:

* content-API tasks emit `source_result` on success and `source_error` on
  failure, and only they run the `completedSources === totalSources`
  check that emits `complete` and closes the controller;
* Emby tasks emit `source_result` both on success and on failure (with an
  empty result list), and never run the completion check;
* the OpenList task emits `source_result` on success and on failure, but
  emits nothing at all when no metadata index is available (it only
  increments `completedSources`), and never runs the completion check. -/

/-- Events of the `text/event-stream` protocol. -/
inductive WsEvent
  | start (query : String) (totalSources : Nat)
  | source_result (source sourceName : String) (results : List ResultItem)
  | source_error (source sourceName : String) (error : String)
  | complete (totalResults : Nat) (completedSources : Nat)
deriving Repr, DecidableEq

/-- The completion of one streaming task, with the data its handler uses. -/
inductive WsOutcome
  | apiOk (source sourceName : String) (filteredResults : List ResultItem)
  | apiErr (source sourceName errMsg : String)
  | embyOk (source sourceName : String) (results : List ResultItem)
  | embyErr (source sourceName : String)
  | openlistOk (results : List ResultItem)
  | openlistNoIndex
  | openlistErr
deriving Repr, DecidableEq

/-- One step of a streaming run: a task completes, or the environment
closes the stream / breaks the controller / lets the deadline expire. -/
inductive WsAct
  | taskCompletes (o : WsOutcome)
  | consumerCancel
  | controllerBreak
  | timeExpire
deriving Repr, DecidableEq

/-- Shared state of the stream writer: the `streamClosed` flag, whether
the controller can still accept enqueues, the deadline flag read by
`isTimeExceeded`, the `completedSources` counter, the accumulated
`allResults`, the events written so far, and whether `controller.close()`
was called. -/
structure WsState where
  streamClosed : Bool
  controllerDown : Bool
  timeExpired : Bool
  completedSources : Nat
  allResults : List ResultItem
  events : List WsEvent
  controllerClosed : Bool
deriving Repr, DecidableEq

/-- `safeEnqueue`: refuses to write when `streamClosed` is set or the
controller can no longer deliver (`desiredSize` null, or `enqueue` throws);
on success the event is appended.  (When `enqueue` throws, the source also
sets `streamClosed = true`; the model keeps the weaker behaviour of the
`desiredSize` guard, which only reports failure, and proves closure
separately from the persistence of `controllerDown`.) -/
def safeEnqueue (s : WsState) (e : WsEvent) : Bool × WsState :=
  if s.streamClosed || s.controllerDown then (false, s)
  else (true, { s with events := s.events ++ [e] })

/-- The trailing `completedSources === totalSources` check, present only
in the content-API task handlers. -/
def wsCompleteCheck (total : Nat) (s : WsState) : WsState :=
  if s.completedSources = total then
    if !s.streamClosed then
      let (ok, s1) := safeEnqueue s
        (WsEvent.complete s.allResults.length s.completedSources)
      if ok then { s1 with controllerClosed := true } else s1
    else s
  else s

/-- The completion handler of one task, exactly as in the source. -/
def wsHandle (total : Nat) (s : WsState) : WsOutcome → WsState
  | WsOutcome.apiOk src name results =>
    -- completedSources++; if (!streamClosed) { enqueue source_result;
    -- on failure set streamClosed and return }
    -- then allResults.push(...), then the completion check
    let s := { s with completedSources := s.completedSources + 1 }
    if !s.streamClosed then
      let (ok, s1) := safeEnqueue s (WsEvent.source_result src name results)
      if !ok then { s1 with streamClosed := true }
      else
        let s2 := if results.length > 0
          then { s1 with allResults := s1.allResults ++ results } else s1
        wsCompleteCheck total s2
    else
      let s2 := if results.length > 0
        then { s with allResults := s.allResults ++ results } else s
      wsCompleteCheck total s2
  | WsOutcome.apiErr src name msg =>
    let s := { s with completedSources := s.completedSources + 1 }
    if !s.streamClosed then
      let (ok, s1) := safeEnqueue s (WsEvent.source_error src name msg)
      if !ok then { s1 with streamClosed := true }
      else wsCompleteCheck total s1
    else wsCompleteCheck total s
  | WsOutcome.embyOk src name results =>
    let s := { s with completedSources := s.completedSources + 1 }
    if !s.streamClosed then
      let (ok, s1) := safeEnqueue s (WsEvent.source_result src name results)
      if ok then
        if results.length > 0
        then { s1 with allResults := s1.allResults ++ results } else s1
      else { s1 with streamClosed := true }
    else s
  | WsOutcome.embyErr src name =>
    let s := { s with completedSources := s.completedSources + 1 }
    if !s.streamClosed then
      (safeEnqueue s (WsEvent.source_result src name [])).2
    else s
  | WsOutcome.openlistOk results =>
    let s := { s with completedSources := s.completedSources + 1 }
    if !s.streamClosed then
      let (ok, s1) := safeEnqueue s
        (WsEvent.source_result "openlist" "私人影库" results)
      if ok then { s1 with allResults := s1.allResults ++ results }
      else { s1 with streamClosed := true }
    else s
  | WsOutcome.openlistNoIndex =>
    -- `else { completedSources++; }` : no event at all
    { s with completedSources := s.completedSources + 1 }
  | WsOutcome.openlistErr =>
    let s := { s with completedSources := s.completedSources + 1 }
    if !s.streamClosed then
      (safeEnqueue s (WsEvent.source_result "openlist" "私人影库" [])).2
    else s

/-- One streaming-run step. -/
def wsStep (total : Nat) (s : WsState) : WsAct → WsState
  | WsAct.taskCompletes o => wsHandle total s o
  | WsAct.consumerCancel => { s with streamClosed := true }
  | WsAct.controllerBreak => { s with controllerDown := true }
  | WsAct.timeExpire => { s with timeExpired := true }

/-- A full streaming run: emit the `start` event (aborting like the source
when it cannot be written), then process the schedule. -/
def wsRun (query : String) (total : Nat) (acts : List WsAct) : WsState :=
  let s0 : WsState := ⟨false, false, false, 0, [], [], false⟩
  let (ok, s1) := safeEnqueue s0 (WsEvent.start query total)
  if ok then acts.foldl (wsStep total) s1 else s1

/-- Recogniser for `complete` events. -/
def WsEvent.isComplete : WsEvent → Bool
  | WsEvent.complete _ _ => true
  | _ => false

/-- Recogniser for `source_error` events. -/
def WsEvent.isSourceError : WsEvent → Bool
  | WsEvent.source_error _ _ _ => true
  | _ => false

/-! ## Configuration constants -/

/-- `MAX_CONCURRENT = 3` (both the V1 batch route and the ws route). -/
def MAX_CONCURRENT : Nat := 3

/-- `SEARCH_TIMEOUT_MS = 8000`, the per content-API-task timeout. -/
def SEARCH_TIMEOUT_MS : Nat := 8000

/-- `EMBY_SEARCH_TIMEOUT_MS = 5000`. -/
def EMBY_SEARCH_TIMEOUT_MS : Nat := 5000

/-- `OPENLIST_SEARCH_TIMEOUT_MS = 5000`. -/
def OPENLIST_SEARCH_TIMEOUT_MS : Nat := 5000

/-- `MAX_RESULTS_PER_SOURCE = 30` in both batch snapshots. -/
def MAX_RESULTS_PER_SOURCE : Nat := 30

/-- `MAX_RESULTS_PER_SOURCE = 20` in the ws route. -/
def MAX_RESULTS_PER_SOURCE_WS : Nat := 20

/-- `MAX_TOTAL_TIME_MS = 25000`, the global deadline (ws route and V2
batch route; the V1 batch route has no global deadline). -/
def MAX_TOTAL_TIME_MS : Nat := 25000

/-! ## The OpenList (local catalog) adapter -/

/-- One entry of the cached OpenList metadata index
(`metaInfo.folders[key]`). -/
structure FolderInfo where
  title : Option String
  poster_path : String
  release_date : Option String
  overview : Option String
  media_type : String
  folderName : Option String
deriving Repr, DecidableEq

/-- The cached metadata index (`metaInfo`), its `folders` object as an
ordered key/value list (`Object.entries` order). -/
structure MetaInfo where
  folders : List (String × FolderInfo)
deriving Repr, DecidableEq

/-- `getCachedMetaInfo()` with the fall-back read of
`db.getGlobalValue('video.metainfo')` (modelled as already parsed). -/
def loadMetaInfo (cached stored : Option MetaInfo) : Option MetaInfo :=
  match cached with
  | some m => some m
  | none => stored

/-- Building one `ResultItem` from a matched index entry (identical in all
three adapters; `getTMDBImageUrl` is the external poster-URL helper). -/
def itemOfFolder (getTMDBImageUrl : String → String) (key : String)
    (info : FolderInfo) : ResultItem :=
  { id := key, source := "openlist", source_name := "私人影库",
    title := info.title.getD "",
    poster := getTMDBImageUrl info.poster_path,
    episodes := [], episodes_titles := [],
    year := (info.release_date.map (fun d => splitHead d '-')).getD "",
    desc := info.overview.getD "",
    type_name := if info.media_type = "movie" then "电影" else "电视剧",
    douban_id := 0 }

/-- Batch-snapshot matcher:
`folderName?.toLowerCase().includes(queryLower) ||
 info.title?.toLowerCase().includes(queryLower)` where `folderName` is the
entry key. -/
def matchesEntryBatch (queryLower : List Char) (e : String × FolderInfo) : Bool :=
  strIncludesLowerOf e.1 queryLower ||
    (match e.2.title with
     | some t => strIncludesLowerOf t queryLower
     | none => false)

/-- ws-route matcher: reads `info.folderName` (a field of the entry value)
instead of the entry key. -/
def matchesEntryWs (queryLower : List Char) (e : String × FolderInfo) : Bool :=
  (match e.2.folderName with
   | some f => strIncludesLowerOf f queryLower
   | none => false) ||
  (match e.2.title with
   | some t => strIncludesLowerOf t queryLower
   | none => false)

/-- The scan loop shared by the three OpenList adapters: walk the entries
in order, collect the items of matching entries, and `break` as soon as
`cap` results are collected.  The second component counts how many index
entries the loop examined. -/
def scanGo (isMatch : String × FolderInfo → Bool)
    (mk : String × FolderInfo → ResultItem) (cap : Nat) :
    List (String × FolderInfo) → List ResultItem → List ResultItem × Nat
  | [], acc => (acc, 0)
  | e :: rest, acc =>
    if isMatch e then
      let acc1 := acc ++ [mk e]
      if cap ≤ acc1.length then (acc1, 1)
      else
        let r := scanGo isMatch mk cap rest acc1
        (r.1, r.2 + 1)
    else
      let r := scanGo isMatch mk cap rest acc
      (r.1, r.2 + 1)

/-- V1 batch scan: iterates over ALL of `folderEntries` (no entry cap),
stopping only at `MAX_RESULTS_PER_SOURCE` results. -/
def openlistScanV1 (getImg : String → String) (query : String)
    (folders : List (String × FolderInfo)) : List ResultItem × Nat :=
  scanGo (matchesEntryBatch (strLower query))
    (fun e => itemOfFolder getImg e.1 e.2) MAX_RESULTS_PER_SOURCE folders []

/-- V2 batch scan: `maxFoldersToSearch = Math.min(folderEntries.length, 500)`. -/
def openlistScanV2 (getImg : String → String) (query : String)
    (folders : List (String × FolderInfo)) : List ResultItem × Nat :=
  scanGo (matchesEntryBatch (strLower query))
    (fun e => itemOfFolder getImg e.1 e.2) MAX_RESULTS_PER_SOURCE
    (folders.take 500) []

/-- ws scan: entry cap 500 and result cap 20, matching on
`info.folderName`/`info.title` (shown here for a run in which the stream
stays open and the deadline does not fire, so the early `break` on
`streamClosed || isTimeExceeded()` never triggers). -/
def openlistScanWs (getImg : String → String) (query : String)
    (folders : List (String × FolderInfo)) : List ResultItem × Nat :=
  scanGo (matchesEntryWs (strLower query))
    (fun e => itemOfFolder getImg e.1 e.2) MAX_RESULTS_PER_SOURCE_WS
    (folders.take 500) []

/-- The V1 OpenList search task (route.ts snapshot 1, task 1): load the
index from the in-memory cache or, when cold, from the persistent store,
scan it, and swallow any thrown error (`failed`) into an empty batch. -/
def openlistTaskV1 (getImg : String → String) (query : String)
    (cached stored : Option MetaInfo) (failed : Bool) : Batch :=
  if failed then ⟨"openlist", "私人影库", []⟩
  else
    match loadMetaInfo cached stored with
    | some m => ⟨"openlist", "私人影库", (openlistScanV1 getImg query m.folders).1⟩
    | none => ⟨"openlist", "私人影库", []⟩

/-- The V2 OpenList promise value: like V1 but with the 500-entry cap, and
returning a bare list (errors and a missing index both give `[]`). -/
def openlistTaskV2 (getImg : String → String) (query : String)
    (cached stored : Option MetaInfo) (failed : Bool) : List ResultItem :=
  if failed then []
  else
    match loadMetaInfo cached stored with
    | some m => (openlistScanV2 getImg query m.folders).1
    | none => []

/-! ## The Emby (media-server) adapter -/

/-- A native item as returned by the Emby client's `getItems`
(`item.Type` is spelled `ItemType` here because `Type` is reserved). -/
structure EmbyItem where
  Id : String
  Name : String
  ProductionYear : Option Nat
  Overview : Option String
  ItemType : String
deriving Repr, DecidableEq

/-- One configured Emby source: `config.key`, `config.name`, and the
client's `getImageUrl(id, 'Primary')` helper. -/
structure EmbySource where
  key : String
  name : String
  getImageUrl : String → String

/-- Field mapping of one native Emby item into a `ResultItem`. -/
def embyMapItem (sourceValue sourceName : String)
    (getImageUrl : String → String) (item : EmbyItem) : ResultItem :=
  { id := item.Id, source := sourceValue, source_name := sourceName,
    title := item.Name,
    poster := getImageUrl item.Id,
    episodes := [], episodes_titles := [],
    year := (item.ProductionYear.map toString).getD "",
    desc := item.Overview.getD "",
    type_name := if item.ItemType = "Movie" then "电影" else "电视剧",
    douban_id := 0 }

/-- The V1 Emby search task: on success, map all returned items (source
key `emby` when exactly one instance is configured, `emby_<key>`
otherwise); on an exception or timeout, an empty batch whose source key is
the literal `'emby'`. -/
def embyTaskV1 (nEmby : Nat) (src : EmbySource)
    (outcome : Option (List EmbyItem)) : Batch :=
  let sourceValue := if nEmby = 1 then "emby" else "emby_" ++ src.key
  let sourceName := if nEmby = 1 then "Emby" else src.name
  match outcome with
  | some items =>
    ⟨sourceValue, sourceName,
     items.map (embyMapItem sourceValue sourceName src.getImageUrl)⟩
  | none => ⟨"emby", src.name, []⟩

/-- The V2 Emby promise value: same mapping but
`slice(0, MAX_RESULTS_PER_SOURCE)` first; exceptions and timeouts are
caught into `[]`. -/
def embyTaskV2 (nEmby : Nat) (src : EmbySource)
    (outcome : Option (List EmbyItem)) : List ResultItem :=
  match outcome with
  | some items =>
    let sourceValue := if nEmby = 1 then "emby" else "emby_" ++ src.key
    let sourceName := if nEmby = 1 then "Emby" else src.name
    (items.take MAX_RESULTS_PER_SOURCE).map
      (embyMapItem sourceValue sourceName src.getImageUrl)
  | none => []

/-! ## The content-API adapter -/

/-- The V1 content-API search task: on success, apply the content filter
(unless disabled); on an exception or timeout, an empty batch. -/
def apiTaskV1 (disable : Bool) (yellow : List String) (site : Site)
    (outcome : Option (List ResultItem)) : Batch :=
  match outcome with
  | some results =>
    ⟨site.key, site.name,
     if disable then results else results.filter (passesYellowFilter yellow)⟩
  | none => ⟨site.key, site.name, []⟩

/-- The V2 content-API promise value: the raw list, with errors and
timeouts caught into `[]` (no per-source filter in this snapshot). -/
def apiTaskV2 (outcome : Option (List ResultItem)) : List ResultItem :=
  outcome.getD []

/-! ## The V1 batch pipeline -/

/-- Request-scoped inputs of the V1 batch route after the query check: the
enumerated sources, the outcome of each adapter's awaited call (`none` =
the promise rejected or the timeout race fired first), and the
configuration snapshot. -/
structure BatchEnvV1 where
  query : String
  sites : List Site
  siteOutcomes : List (Option (List ResultItem))
  embySources : List EmbySource
  embyOutcomes : List (Option (List EmbyItem))
  hasOpenList : Bool
  cachedMeta : Option MetaInfo
  storedMeta : Option MetaInfo
  openlistFailed : Bool
  getTMDBImageUrl : String → String
  sourceConfig : List SourceCfg
  disableYellowFilter : Bool
  yellow : List String

/-- The V1 task list in submission order: the OpenList task first (when
all four OpenList settings are present), then one task per Emby source in
enumeration order, then one task per content-API site in site order. -/
def batchTasksV1 (env : BatchEnvV1) : List Batch :=
  (if env.hasOpenList then
    [openlistTaskV1 env.getTMDBImageUrl env.query env.cachedMeta
      env.storedMeta env.openlistFailed]
   else []) ++
  List.zipWith (embyTaskV1 env.embySources.length)
    env.embySources env.embyOutcomes ++
  List.zipWith (apiTaskV1 env.disableYellowFilter env.yellow)
    env.sites env.siteOutcomes

/-- The V1 batch pipeline from the task list to the response body:
scheduler, `flatMap(r => r.results)`, then the descending weight sort.
This snapshot applies no further filter and no cap after flattening.
`none` would mean the scheduler's polling loop never finishes (impossible
for `MAX_CONCURRENT = 3`, as proved above). -/
def batchResponseV1 (env : BatchEnvV1) : Option (List ResultItem) :=
  (runWithConcurrencyControl ((batchTasksV1 env).map some) MAX_CONCURRENT).map
    (fun r => sortByWeightDesc (weightOf env.sourceConfig)
      (r.1.flatMap Batch.results))

/-- Responses of the V1 batch `GET` handler (`cacheTime` is the configured
`max-age`/`s-maxage` value of the long-lived cache headers). -/
inductive BatchResponse
  | unauthorized
  | emptyCached (cacheTime : Nat)
  | results (body : List ResultItem) (cacheTime : Nat)
  | hung
deriving Repr, DecidableEq

/-- `searchParams.get('q')` is `null` when the parameter is absent;
`!query` is true both for `null` and for the empty string. -/
def queryFalsy : Option String → Bool
  | none => true
  | some s => s == ""

/-- The V1 batch `GET` handler: the auth gate, then the empty-query
short-circuit (before the config read, the weight map, the source
enumeration and the task list are ever built), then the full pipeline.
The second component counts the search tasks created. -/
def getV1 (authUsername : Option String) (query : Option String)
    (cacheTime : Nat) (env : BatchEnvV1) : BatchResponse × Nat :=
  match authUsername with
  | none => (BatchResponse.unauthorized, 0)
  | some _ =>
    if queryFalsy query then (BatchResponse.emptyCached cacheTime, 0)
    else
      match batchResponseV1 env with
      | some body => (BatchResponse.results body cacheTime, (batchTasksV1 env).length)
      | none => (BatchResponse.hung, (batchTasksV1 env).length)

/-! ## The V2 batch pipeline -/

/-- Request-scoped inputs of the V2 batch route.  `allSites` and
`allEmbySources` are capped (`slice(0, 5)`, `slice(0, 3)`) before any
promise is created; `e1`/`e2`/`e3` record whether `isTimeExceeded()` was
already true when the OpenList / Emby / API phase results were about to be
collected (the deadline clock only advances, so `e1 → e2 → e3` in any real
run, but the embedding does not need that). -/
structure BatchEnvV2 where
  query : String
  allSites : List Site
  siteOutcomes : List (Option (List ResultItem))
  allEmbySources : List EmbySource
  embyOutcomes : List (Option (List EmbyItem))
  hasOpenList : Bool
  cachedMeta : Option MetaInfo
  storedMeta : Option MetaInfo
  openlistFailed : Bool
  getTMDBImageUrl : String → String
  e1 : Bool
  e2 : Bool
  e3 : Bool
  sourceConfig : List SourceCfg
  disableYellowFilter : Bool
  yellow : List String

/-- The `allResults` array of the V2 route: the OpenList value is pushed
unless the deadline was hit, then all Emby settled values, then all API
settled values (each phase skipped wholesale after the deadline; every
per-source promise has already caught its own error into `[]`, so all
settled values are arrays and the `Array.isArray` guards always pass). -/
def batchCollectV2 (openlist : List ResultItem)
    (emby api : List (List ResultItem)) (e1 e2 e3 : Bool) :
    List (List ResultItem) :=
  (if !e1 then [openlist] else []) ++
  (if !e2 then emby else []) ++
  (if !e3 then api else [])

/-- The V2 batch pipeline: collect, split positionally
(`allResults[0]` / `slice(1, 1+nEmby)` / `slice(1+nEmby)`), flatten, cap at
`MAX_RESULTS_PER_SOURCE * (#api + #emby + 1)`, apply the content filter to
the flattened list (unless disabled), and weight-sort. -/
def batchResponseV2 (env : BatchEnvV2) : List ResultItem :=
  let apiSites := env.allSites.take 5
  let embySources := env.allEmbySources.take 3
  let embyVals := List.zipWith (embyTaskV2 embySources.length)
    embySources env.embyOutcomes
  let apiVals := List.zipWith (fun (_ : Site) o => apiTaskV2 o)
    apiSites env.siteOutcomes
  let openlistVal := if env.hasOpenList then
      openlistTaskV2 env.getTMDBImageUrl env.query env.cachedMeta
        env.storedMeta env.openlistFailed
    else []
  let allResults := batchCollectV2 openlistVal embyVals apiVals env.e1 env.e2 env.e3
  let openlistResults := (allResults[0]?).getD []
  let embyResultsArray := (allResults.drop 1).take embyVals.length
  let apiResults := allResults.drop (1 + embyVals.length)
  let flattened := (openlistResults ++ embyResultsArray.flatten ++ apiResults.flatten).take
    (MAX_RESULTS_PER_SOURCE * (apiSites.length + embySources.length + 1))
  let filtered := applyYellowFilter env.disableYellowFilter env.yellow flattened
  sortByWeightDesc (weightOf env.sourceConfig) filtered

/-! ## Properties of the stable descending sort -/

lemma mem_insertByWeight (w : String → Int) (a x : ResultItem) :
    ∀ l : List ResultItem, x ∈ insertByWeight w a l ↔ x = a ∨ x ∈ l := by
  intro l
  induction l with
  | nil => simp [insertByWeight]
  | cons b l ih =>
    by_cases hab : w a.source < w b.source
    · rw [insertByWeight, if_pos hab]
      simp only [List.mem_cons, ih]
      tauto
    · rw [insertByWeight, if_neg hab]
      simp only [List.mem_cons]

lemma insertByWeight_perm (w : String → Int) (a : ResultItem) :
    ∀ l : List ResultItem, (insertByWeight w a l).Perm (a :: l) := by
  intro l
  induction l with
  | nil => simp [insertByWeight]
  | cons b l ih =>
    by_cases hab : w a.source < w b.source
    · rw [insertByWeight, if_pos hab]
      exact (ih.cons b).trans (List.Perm.swap a b l)
    · rw [insertByWeight, if_neg hab]

lemma sortByWeightDesc_perm (w : String → Int) :
    ∀ l : List ResultItem, (sortByWeightDesc w l).Perm l := by
  intro l
  induction l with
  | nil => exact List.Perm.refl []
  | cons a l ih =>
    show (insertByWeight w a (sortByWeightDesc w l)).Perm (a :: l)
    exact (insertByWeight_perm w a (sortByWeightDesc w l)).trans (ih.cons a)

lemma insertByWeight_sorted (w : String → Int) (a : ResultItem)
    (l : List ResultItem)
    (h : l.Pairwise (fun x y => w y.source ≤ w x.source)) :
    (insertByWeight w a l).Pairwise (fun x y => w y.source ≤ w x.source) := by
  induction l with
  | nil => simp [insertByWeight]
  | cons b l ih =>
    rw [List.pairwise_cons] at h
    by_cases hab : w a.source < w b.source
    · rw [insertByWeight, if_pos hab]
      rw [List.pairwise_cons]
      refine ⟨?_, ih h.2⟩
      intro x hx
      rcases (mem_insertByWeight w a x l).mp hx with rfl | hx
      · exact le_of_lt hab
      · exact h.1 x hx
    · rw [insertByWeight, if_neg hab]
      rw [List.pairwise_cons]
      refine ⟨?_, List.pairwise_cons.mpr h⟩
      intro x hx
      rcases List.mem_cons.mp hx with rfl | hx
      · omega
      · have := h.1 x hx
        omega

/-- The merged V1 output is sorted by non-increasing weight. -/
lemma sortByWeightDesc_sorted (w : String → Int) :
    ∀ l : List ResultItem,
      (sortByWeightDesc w l).Pairwise (fun x y => w y.source ≤ w x.source) := by
  intro l
  induction l with
  | nil => exact List.Pairwise.nil
  | cons a l ih => exact insertByWeight_sorted w a (sortByWeightDesc w l) ih

lemma filter_insertByWeight (w : String → Int) (k : Int) (a : ResultItem) :
    ∀ l : List ResultItem,
      (insertByWeight w a l).filter (fun x => decide (w x.source = k)) =
        if w a.source = k
        then a :: l.filter (fun x => decide (w x.source = k))
        else l.filter (fun x => decide (w x.source = k)) := by
  intro l
  induction l with
  | nil =>
    by_cases hak : w a.source = k <;> simp [insertByWeight, hak]
  | cons b l ih =>
    by_cases hab : w a.source < w b.source
    · rw [insertByWeight, if_pos hab, List.filter_cons, List.filter_cons, ih]
      by_cases hak : w a.source = k
      · by_cases hbk : w b.source = k
        · exfalso
          rw [hak, hbk] at hab
          omega
        · simp [hak, hbk]
      · simp [hak]
    · rw [insertByWeight, if_neg hab, List.filter_cons, List.filter_cons]
      by_cases hak : w a.source = k <;> simp [hak]

/-- Stability law: within every weight class, the sort preserves the
relative order of the flattened pre-sort sequence exactly. -/
lemma sortByWeightDesc_stable (w : String → Int) (k : Int) :
    ∀ l : List ResultItem,
      (sortByWeightDesc w l).filter (fun x => decide (w x.source = k)) =
        l.filter (fun x => decide (w x.source = k)) := by
  intro l
  induction l with
  | nil => rfl
  | cons a l ih =>
    show (insertByWeight w a (sortByWeightDesc w l)).filter _ = _
    rw [filter_insertByWeight, List.filter_cons]
    by_cases hak : w a.source = k <;> simp [hak, ih]

/-! ## Properties of the OpenList scan loop -/

lemma scanGo_results_eq (isMatch : String × FolderInfo → Bool)
    (mk : String × FolderInfo → ResultItem) (cap : Nat) :
    ∀ (entries : List (String × FolderInfo)) (acc : List ResultItem),
      acc.length < cap →
      (scanGo isMatch mk cap entries acc).1 =
        acc ++ ((entries.filter isMatch).map mk).take (cap - acc.length) := by
  intro entries
  induction entries with
  | nil => intro acc _; simp [scanGo]
  | cons e rest ih =>
    intro acc hacc
    by_cases hm : isMatch e
    · rw [scanGo, if_pos hm]
      by_cases hcap : cap ≤ (acc ++ [mk e]).length
      · rw [if_pos hcap]
        have h1 : cap - acc.length = 1 := by
          simp only [List.length_append, List.length_singleton] at hcap
          omega
        rw [List.filter_cons_of_pos hm, List.map_cons, h1, List.take_succ_cons,
            List.take_zero]
      · rw [if_neg hcap]
        have hlen : (acc ++ [mk e]).length < cap := by omega
        rw [ih (acc ++ [mk e]) hlen]
        have h2 : cap - acc.length = (cap - (acc ++ [mk e]).length) + 1 := by
          simp only [List.length_append, List.length_singleton] at hcap ⊢
          omega
        rw [List.filter_cons_of_pos hm, List.map_cons, h2, List.take_succ_cons]
        simp
    · rw [scanGo, if_neg hm]
      rw [List.filter_cons_of_neg hm]
      exact ih acc hacc

lemma scanGo_examined_le (isMatch : String × FolderInfo → Bool)
    (mk : String × FolderInfo → ResultItem) (cap : Nat) :
    ∀ (entries : List (String × FolderInfo)) (acc : List ResultItem),
      (scanGo isMatch mk cap entries acc).2 ≤ entries.length := by
  intro entries
  induction entries with
  | nil => intro acc; simp [scanGo]
  | cons e rest ih =>
    intro acc
    rw [scanGo]
    by_cases hm : isMatch e
    · rw [if_pos hm]
      by_cases hcap : cap ≤ (acc ++ [mk e]).length
      · rw [if_pos hcap]
        simp
      · rw [if_neg hcap]
        have := ih (acc ++ [mk e])
        simp only [List.length_cons]
        omega
    · rw [if_neg hm]
      have := ih acc
      simp only [List.length_cons]
      omega

/-- Once the result cap is reached inside a prefix of the index, the scan
never looks at the entries after that prefix. -/
lemma scanGo_stops (isMatch : String × FolderInfo → Bool)
    (mk : String × FolderInfo → ResultItem) (cap : Nat) :
    ∀ (l : List (String × FolderInfo)) (acc : List ResultItem)
      (l' : List (String × FolderInfo)),
      acc.length < cap → cap ≤ acc.length + (l.filter isMatch).length →
      scanGo isMatch mk cap (l ++ l') acc = scanGo isMatch mk cap l acc := by
  intro l
  induction l with
  | nil =>
    intro acc l' hlt hge
    simp only [List.filter_nil, List.length_nil] at hge
    omega
  | cons e rest ih =>
    intro acc l' hlt hge
    by_cases hm : isMatch e
    · rw [List.cons_append, scanGo, if_pos hm, scanGo, if_pos hm]
      by_cases hcap : cap ≤ (acc ++ [mk e]).length
      · rw [if_pos hcap, if_pos hcap]
      · rw [if_neg hcap, if_neg hcap]
        rw [ih (acc ++ [mk e]) l' (by omega) ?_]
        rw [List.filter_cons_of_pos hm] at hge
        simp only [List.length_append, List.length_singleton, List.length_cons] at hge ⊢
        omega
    · rw [List.cons_append, scanGo, if_neg hm, scanGo, if_neg hm]
      rw [ih acc l' hlt ?_]
      rw [List.filter_cons_of_neg hm] at hge
      omega

/-! ## Derived pipeline facts -/

/-- The V1 batch response always exists and is the stable weight sort of
the per-task batches flattened in submission order. -/
lemma batchResponseV1_eq (env : BatchEnvV1) :
    batchResponseV1 env =
      some (sortByWeightDesc (weightOf env.sourceConfig)
        ((batchTasksV1 env).flatMap Batch.results)) := by
  unfold batchResponseV1
  rw [runWithConcurrencyControl_eq _ MAX_CONCURRENT (by decide)]
  simp [List.filterMap_map, Function.comp]

lemma foldl_weight_not_mem :
    ∀ (cfgs : List SourceCfg) (m : String → Int) (k : String),
      (∀ s ∈ cfgs, s.key ≠ k) →
      (cfgs.foldl
        (fun m s => fun key => if key = s.key then s.weight.getD 0 else m key)
        m) k = m k := by
  intro cfgs
  induction cfgs with
  | nil => intro m k _; rfl
  | cons c rest ih =>
    intro m k h
    rw [List.foldl_cons, ih _ k (fun s hs => h s (List.mem_cons_of_mem c hs))]
    rw [if_neg]
    intro hk
    exact h c (List.mem_cons_self c rest) (by rw [hk])

/-- A source key absent from `config.SourceConfig` gets weight 0. -/
lemma weightOf_not_mem (cfgs : List SourceCfg) (k : String)
    (h : ∀ s ∈ cfgs, s.key ≠ k) : weightOf cfgs k = 0 :=
  foldl_weight_not_mem cfgs _ k h

/-- Per-task locality of a `zipWith`-built task list: changing the outcome
of task `i` leaves every other task's value unchanged. -/
lemma zipWith_locality {α β γ : Type} (f : α → β → γ) :
    ∀ (xs : List α) (o o' : List β) (i : Nat),
      (∀ j, j ≠ i → o[j]? = o'[j]?) →
      ∀ j, j ≠ i → (List.zipWith f xs o)[j]? = (List.zipWith f xs o')[j]? := by
  intro xs o o' i h j hj
  rw [List.getElem?_zipWith, List.getElem?_zipWith, h j hj]

/-! ## Invariants of the stream writer -/

lemma safeEnqueue_fail (s : WsState) (e : WsEvent)
    (h : s.streamClosed = true ∨ s.controllerDown = true) :
    safeEnqueue s e = (false, s) := by
  unfold safeEnqueue
  rw [if_pos]
  rcases h with h | h <;> simp [h]

lemma wsCompleteCheck_closed (total : Nat) (s : WsState)
    (h : s.streamClosed = true) : wsCompleteCheck total s = s := by
  unfold wsCompleteCheck
  rw [h]
  simp

lemma wsCompleteCheck_down (total : Nat) (s : WsState)
    (h : s.controllerDown = true) : wsCompleteCheck total s = s := by
  unfold wsCompleteCheck
  by_cases h1 : s.completedSources = total
  · rw [if_pos h1]
    by_cases h2 : s.streamClosed = true
    · simp [h2]
    · have h2' : s.streamClosed = false := by
        cases hb : s.streamClosed
        · rfl
        · exact absurd hb h2
      rw [h2']
      simp only [Bool.not_false, if_true]
      rw [safeEnqueue_fail s _ (Or.inr h)]
      simp
  · rw [if_neg h1]

/-- A completion handler or environment step taken with `streamClosed`
already set writes nothing and keeps the flag set (the flag is checked
before every write, both in `safeEnqueue` and at each `if (!streamClosed)`
guard). -/
lemma wsStep_closed (total : Nat) (s : WsState) (a : WsAct)
    (h : s.streamClosed = true) :
    (wsStep total s a).events = s.events ∧
    (wsStep total s a).streamClosed = true := by
  cases a with
  | taskCompletes o =>
    cases o with
    | apiOk src name results =>
      simp only [wsStep, wsHandle, h, Bool.not_true, Bool.false_eq_true,
        if_false]
      by_cases hr : results.length > 0
      · rw [if_pos hr, wsCompleteCheck_closed total _ rfl]
        exact ⟨rfl, rfl⟩
      · rw [if_neg hr, wsCompleteCheck_closed total _ rfl]
        exact ⟨rfl, rfl⟩
    | apiErr src name msg =>
      simp only [wsStep, wsHandle, h, Bool.not_true, Bool.false_eq_true,
        if_false]
      rw [wsCompleteCheck_closed total _ rfl]
      exact ⟨rfl, rfl⟩
    | embyOk src name results =>
      simp only [wsStep, wsHandle, h, Bool.not_true, Bool.false_eq_true,
        if_false]
      refine ⟨?_, ?_⟩ <;> trivial
    | embyErr src name =>
      simp only [wsStep, wsHandle, h, Bool.not_true, Bool.false_eq_true,
        if_false]
      refine ⟨?_, ?_⟩ <;> trivial
    | openlistOk results =>
      simp only [wsStep, wsHandle, h, Bool.not_true, Bool.false_eq_true,
        if_false]
      refine ⟨?_, ?_⟩ <;> trivial
    | openlistNoIndex => exact ⟨rfl, h⟩
    | openlistErr =>
      simp only [wsStep, wsHandle, h, Bool.not_true, Bool.false_eq_true,
        if_false]
      refine ⟨?_, ?_⟩ <;> trivial
  | consumerCancel => exact ⟨rfl, rfl⟩
  | controllerBreak => exact ⟨rfl, h⟩
  | timeExpire => exact ⟨rfl, h⟩

lemma safeEnqueue_controllerDown (s : WsState) (e : WsEvent) :
    ((safeEnqueue s e).2).controllerDown = s.controllerDown := by
  unfold safeEnqueue
  split_ifs <;> rfl

lemma wsCompleteCheck_controllerDown (total : Nat) (s : WsState) :
    (wsCompleteCheck total s).controllerDown = s.controllerDown := by
  unfold wsCompleteCheck safeEnqueue
  split_ifs <;> rfl

/-- No completion handler ever revives a broken controller. -/
lemma wsHandle_controllerDown (total : Nat) (s : WsState) (o : WsOutcome) :
    (wsHandle total s o).controllerDown = s.controllerDown := by
  cases o with
  | apiOk src name results =>
    simp only [wsHandle]
    unfold wsCompleteCheck safeEnqueue
    split_ifs <;> rfl
  | apiErr src name msg =>
    simp only [wsHandle]
    unfold wsCompleteCheck safeEnqueue
    split_ifs <;> rfl
  | embyOk src name results =>
    simp only [wsHandle]
    unfold safeEnqueue
    split_ifs <;> rfl
  | embyErr src name =>
    simp only [wsHandle]
    unfold safeEnqueue
    split_ifs <;> rfl
  | openlistOk results =>
    simp only [wsHandle]
    unfold safeEnqueue
    split_ifs <;> rfl
  | openlistNoIndex => rfl
  | openlistErr =>
    simp only [wsHandle]
    unfold safeEnqueue
    split_ifs <;> rfl

/-- No completion handler writes an event once the controller has stopped
accepting writes. -/
lemma wsHandle_events_down (total : Nat) (s : WsState) (o : WsOutcome)
    (h : s.controllerDown = true) : (wsHandle total s o).events = s.events := by
  cases o with
  | apiOk src name results =>
    simp only [wsHandle]
    unfold wsCompleteCheck safeEnqueue
    split_ifs <;> first | rfl | simp_all
  | apiErr src name msg =>
    simp only [wsHandle]
    unfold wsCompleteCheck safeEnqueue
    split_ifs <;> first | rfl | simp_all
  | embyOk src name results =>
    simp only [wsHandle]
    unfold safeEnqueue
    split_ifs <;> first | rfl | simp_all
  | embyErr src name =>
    simp only [wsHandle]
    unfold safeEnqueue
    split_ifs <;> first | rfl | simp_all
  | openlistOk results =>
    simp only [wsHandle]
    unfold safeEnqueue
    split_ifs <;> first | rfl | simp_all
  | openlistNoIndex => rfl
  | openlistErr =>
    simp only [wsHandle]
    unfold safeEnqueue
    split_ifs <;> first | rfl | simp_all

/-- A step taken after a write failed because the controller is gone
(`desiredSize` null / `enqueue` throwing) writes nothing, and the
breakdown persists: a failed write is terminal and never retried. -/
lemma wsStep_down (total : Nat) (s : WsState) (a : WsAct)
    (h : s.controllerDown = true) :
    (wsStep total s a).events = s.events ∧
    (wsStep total s a).controllerDown = true := by
  cases a with
  | taskCompletes o =>
    refine ⟨wsHandle_events_down total s o h, ?_⟩
    show (wsHandle total s o).controllerDown = true
    rw [wsHandle_controllerDown]
    exact h
  | consumerCancel => exact ⟨rfl, h⟩
  | controllerBreak => exact ⟨rfl, rfl⟩
  | timeExpire => exact ⟨rfl, h⟩

/-- After the consumer disconnects, no continuation of the run ever
appends another event. -/
lemma wsFold_closed (total : Nat) :
    ∀ (acts : List WsAct) (s : WsState), s.streamClosed = true →
      (acts.foldl (wsStep total) s).events = s.events := by
  intro acts
  induction acts with
  | nil => intro s _; rfl
  | cons a acts ih =>
    intro s h
    obtain ⟨he, hc⟩ := wsStep_closed total s a h
    rw [List.foldl_cons, ih _ hc, he]

/-- After a failed write, no continuation of the run ever appends another
event. -/
lemma wsFold_down (total : Nat) :
    ∀ (acts : List WsAct) (s : WsState), s.controllerDown = true →
      (acts.foldl (wsStep total) s).events = s.events := by
  intro acts
  induction acts with
  | nil => intro s _; rfl
  | cons a acts ih =>
    intro s h
    obtain ⟨he, hc⟩ := wsStep_down total s a h
    rw [List.foldl_cons, ih _ hc, he]

/-! ## Concrete inputs used by the claim theorems -/

/-- The Emby item of the C5 counterexample after field mapping. -/
def c5item : ResultItem :=
  ⟨"id1", "emby", "Emby", "M", "", [], [], "", "", "电影", 0⟩

/-- C5 counterexample environment: V1 batch route, one Emby source
returning one movie item, blocked word list `["电影"]`, filter enabled. -/
def c5env : BatchEnvV1 :=
  { query := "m",
    sites := [], siteOutcomes := [],
    embySources := [⟨"e1", "MyEmby", fun _ => ""⟩],
    embyOutcomes := [some [⟨"id1", "M", none, none, "Movie"⟩]],
    hasOpenList := false,
    cachedMeta := none, storedMeta := none, openlistFailed := false,
    getTMDBImageUrl := fun _ => "",
    sourceConfig := [],
    disableYellowFilter := false,
    yellow := ["电影"] }

/-- A V2 environment with no sources at all, for the `C5_amended`
witness. -/
def c5env2 : BatchEnvV2 :=
  { query := "m",
    allSites := [], siteOutcomes := [],
    allEmbySources := [], embyOutcomes := [],
    hasOpenList := false,
    cachedMeta := none, storedMeta := none, openlistFailed := false,
    getTMDBImageUrl := fun _ => "",
    e1 := false, e2 := false, e3 := false,
    sourceConfig := [],
    disableYellowFilter := false,
    yellow := ["电影"] }

/-- An item delivered after the deadline in the C6 counterexample. -/
def c6item : ResultItem :=
  ⟨"x1", "a", "SiteA", "T", "", [], [], "", "", "电视剧", 0⟩

/-- The non-matching index entry of the C7 counterexample. -/
def c7info : FolderInfo := ⟨none, "", none, none, "movie", none⟩

/-- A 501-entry index whose only match sits at position 500. -/
def c7entries : List (String × FolderInfo) :=
  List.replicate 500 ("x", c7info) ++ [("zz", c7info)]

/-- Environment for the `C8_empty_query` witness (never reached by the
handler on an empty query). -/
def c8env : BatchEnvV1 :=
  ⟨"m", [], [], [], [], false, none, none, false, fun _ => "", [], false, []⟩

/-! ## Claims -/

/-- C1: the claim "at no instant has more than limit tasks running
concurrently" is FALSE for `runWithConcurrencyLimit` (streaming mode):
settled promises are never removed from `executing`, so once one task has
settled, every later `Promise.race(executing)` resolves immediately and
new tasks are started while `limit` tasks are still running.  Under the
real event-loop interleaving `limViolationSchedule` (5 tasks, limit
`MAX_CONCURRENT = 3`, task 0 fast, the rest slow), tasks 1,2,3,4 run at
the same instant. -/
theorem C1_counterexample :
    (limRun 5 MAX_CONCURRENT limViolationSchedule).runningTasks = [1, 2, 3, 4] ∧
    MAX_CONCURRENT < (limRun 5 MAX_CONCURRENT limViolationSchedule).runningTasks.length := by
  exact ⟨by decide, by decide⟩

/-- C1 (amended): `runWithConcurrencyControl` (batch mode) satisfies the
claim in full — it starts each of the `total` tasks exactly once, never
has more than `limit` (indeed more than one) task running, and returns
only after every task finished, with each outcome stored at its
submission index.  `runWithConcurrencyLimit` (streaming mode) starts each
task at most once and does not return before all tasks have completed
(when the stream is not cancelled and the deadline does not fire), but its
concurrency bound can be exceeded once any task has settled
(`C1_counterexample`). -/
theorem C1_amended {α : Type} (tasks : List (Option α)) (limit : Nat)
    (hl : 1 ≤ limit) (n : Nat) (acts : List LimAct)
    (hnf : ∀ a ∈ acts, a ≠ LimAct.setClosed ∧ a ≠ LimAct.setExpired) :
    (∃ tr, runWithConcurrencyControl tasks limit = some (tasks.filterMap id, tr) ∧
      (∀ i, i < tasks.length →
        tr.count (SchedEv.start i) = 1 ∧ SchedEv.finish i ∈ tr) ∧
      maxRunning tr ≤ limit) ∧
    ((limRun n limit acts).startedTasks.Nodup ∧
     ((limRun n limit acts).returned = true →
       (∀ i, i < n → i ∈ (limRun n limit acts).startedTasks) ∧
       (limRun n limit acts).runningTasks = [])) := by
  constructor
  · refine ⟨pairTrace 0 tasks.length,
      runWithConcurrencyControl_eq tasks limit hl, ?_, ?_⟩
    · intro i hi
      constructor
      · unfold pairTrace
        rw [count_start_pairTraceAux, if_pos (by omega)]
      · unfold pairTrace
        rw [mem_finish_pairTraceAux]
        omega
    · exact le_trans (maxRunning_pairTrace tasks.length) hl
  · constructor
    · exact List.Nodup.of_append_right (limRun_nodup n limit acts).1
    · intro hret
      obtain ⟨h1, h2, -⟩ := limRun_returned_complete n limit acts hnf hret
      exact ⟨h1, h2⟩

/-- Witness for `C1_amended` at a concrete input. -/
theorem C1_amended_witness :
    (∃ tr, runWithConcurrencyControl [some 1, none] 1 = some ([1], tr) ∧
      (∀ i, i < [some (1 : Nat), none].length →
        tr.count (SchedEv.start i) = 1 ∧ SchedEv.finish i ∈ tr) ∧
      maxRunning tr ≤ 1) ∧
    ((limRun 1 1 []).startedTasks.Nodup ∧
     ((limRun 1 1 []).returned = true →
       (∀ i, i < 1 → i ∈ (limRun 1 1 []).startedTasks) ∧
       (limRun 1 1 []).runningTasks = [])) := by
  have h := C1_amended [some (1 : Nat), none] 1 (by decide) 1 []
    (fun a ha => absurd ha (List.not_mem_nil a))
  exact h

/-- C2: the `completedSources === totalSources` check that emits
`COMPLETE` and closes the stream exists only in the content-API task
handlers.  With one content-API source and one Emby source where the Emby
task completes last, the run emits `start` and one event per task but
never a `complete`, and the server never closes the stream, although the
completed count did reach the total. -/
theorem C2_no_complete_when_emby_finishes_last :
    (wsRun "q" 2
      [WsAct.taskCompletes (WsOutcome.apiErr "a" "SiteA" "boom"),
       WsAct.taskCompletes (WsOutcome.embyOk "emby" "Emby" [])]).events =
      [WsEvent.start "q" 2,
       WsEvent.source_error "a" "SiteA" "boom",
       WsEvent.source_result "emby" "Emby" []] ∧
    (wsRun "q" 2
      [WsAct.taskCompletes (WsOutcome.apiErr "a" "SiteA" "boom"),
       WsAct.taskCompletes (WsOutcome.embyOk "emby" "Emby" [])]).events.all
      (fun e => !e.isComplete) = true ∧
    (wsRun "q" 2
      [WsAct.taskCompletes (WsOutcome.apiErr "a" "SiteA" "boom"),
       WsAct.taskCompletes (WsOutcome.embyOk "emby" "Emby" [])]).completedSources = 2 ∧
    (wsRun "q" 2
      [WsAct.taskCompletes (WsOutcome.apiErr "a" "SiteA" "boom"),
       WsAct.taskCompletes (WsOutcome.embyOk "emby" "Emby" [])]).controllerClosed
      = false :=
  ⟨by decide, by decide, by decide, by decide⟩

/-- C3: in streaming mode a failing Emby adapter does NOT produce a
`SOURCE_ERROR` event as the claim states: its catch block emits a
`source_result` event with an empty result list. -/
theorem C3_counterexample :
    (wsRun "q" 1 [WsAct.taskCompletes (WsOutcome.embyErr "emby" "Emby")]).events =
      [WsEvent.start "q" 1, WsEvent.source_result "emby" "Emby" []] ∧
    (wsRun "q" 1 [WsAct.taskCompletes (WsOutcome.embyErr "emby" "Emby")]).events.all
      (fun e => !e.isSourceError) = true :=
  ⟨by decide, by decide⟩

/-- C3 (amended): per-source failures are contained.  In batch mode every
adapter converts an exception or timeout into an empty `ResultBatch` for
that source, the request as a whole still succeeds, and the outcome of one
source never influences another source's task value.  In streaming mode a
failed content-API task emits a `SOURCE_ERROR` event, while failed Emby
and OpenList tasks emit an empty `SOURCE_RESULT` event instead. -/
theorem C3_amended :
    (∀ (d : Bool) (y : List String) (site : Site),
      apiTaskV1 d y site none = ⟨site.key, site.name, []⟩) ∧
    (∀ (nE : Nat) (src : EmbySource),
      embyTaskV1 nE src none = ⟨"emby", src.name, []⟩) ∧
    (∀ (g : String → String) (q : String) (c st : Option MetaInfo),
      openlistTaskV1 g q c st true = ⟨"openlist", "私人影库", []⟩) ∧
    (∀ env : BatchEnvV1, ∃ body, batchResponseV1 env = some body) ∧
    (∀ (d : Bool) (y : List String) (sites : List Site)
       (o o' : List (Option (List ResultItem))) (i : Nat),
      (∀ j, j ≠ i → o[j]? = o'[j]?) →
      ∀ j, j ≠ i →
        (List.zipWith (apiTaskV1 d y) sites o)[j]? =
          (List.zipWith (apiTaskV1 d y) sites o')[j]?) ∧
    (∀ (total : Nat) (s : WsState) (src name msg : String),
      s.streamClosed = false → s.controllerDown = false →
      s.completedSources + 1 ≠ total →
      (wsHandle total s (WsOutcome.apiErr src name msg)).events =
        s.events ++ [WsEvent.source_error src name msg]) ∧
    (∀ (total : Nat) (s : WsState) (src name : String),
      s.streamClosed = false → s.controllerDown = false →
      (wsHandle total s (WsOutcome.embyErr src name)).events =
        s.events ++ [WsEvent.source_result src name []]) ∧
    (∀ (total : Nat) (s : WsState),
      s.streamClosed = false → s.controllerDown = false →
      (wsHandle total s WsOutcome.openlistErr).events =
        s.events ++ [WsEvent.source_result "openlist" "私人影库" []]) := by
  refine ⟨fun d y site => rfl, fun nE src => rfl, fun g q c st => rfl,
    fun env => ⟨_, batchResponseV1_eq env⟩,
    fun d y sites o o' i h j hj => zipWith_locality (apiTaskV1 d y) sites o o' i h j hj,
    ?_, ?_, ?_⟩
  · intro total s src name msg hc hd hne
    simp [wsHandle, safeEnqueue, wsCompleteCheck, hc, hd, hne]
  · intro total s src name hc hd
    simp [wsHandle, safeEnqueue, hc, hd]
  · intro total s hc hd
    simp [wsHandle, safeEnqueue, hc, hd]

/-- Witness for `C3_amended` at concrete inputs. -/
theorem C3_amended_witness :
    apiTaskV1 false [] ⟨"a", "A"⟩ none = ⟨"a", "A", []⟩ ∧
    (wsHandle 2 ⟨false, false, false, 0, [], [WsEvent.start "q" 2], false⟩
      (WsOutcome.apiErr "a" "A" "boom")).events =
      [WsEvent.start "q" 2] ++ [WsEvent.source_error "a" "A" "boom"] := by
  constructor
  · exact C3_amended.1 false [] ⟨"a", "A"⟩
  · exact C3_amended.2.2.2.2.2.1 2
      ⟨false, false, false, 0, [], [WsEvent.start "q" 2], false⟩
      "a" "A" "boom" rfl rfl (by decide)

/-- C4: the V1 batch response is the flattened pre-sort sequence sorted by
non-increasing `weightMap.get(item.source) ?? 0`, a permutation of that
sequence, with the relative order of equal-weight items exactly as in the
flattened sequence (true stability, inherited from the ECMAScript
guarantee that `Array.prototype.sort` is stable), and a source absent from
the weight map defaults to weight 0. -/
theorem C4_sort_stable (env : BatchEnvV1) :
    ∃ body, batchResponseV1 env = some body ∧
      body.Pairwise (fun x y =>
        weightOf env.sourceConfig y.source ≤ weightOf env.sourceConfig x.source) ∧
      (∀ k : Int, body.filter
          (fun x => decide (weightOf env.sourceConfig x.source = k)) =
        ((batchTasksV1 env).flatMap Batch.results).filter
          (fun x => decide (weightOf env.sourceConfig x.source = k))) ∧
      body.Perm ((batchTasksV1 env).flatMap Batch.results) ∧
      (∀ src : String, (∀ s ∈ env.sourceConfig, s.key ≠ src) →
        weightOf env.sourceConfig src = 0) :=
  ⟨_, batchResponseV1_eq env, sortByWeightDesc_sorted _ _,
    fun k => sortByWeightDesc_stable _ k _, sortByWeightDesc_perm _ _,
    fun src h => weightOf_not_mem _ src h⟩

/-- Witness for `C4_sort_stable` at a concrete environment. -/
theorem C4_sort_stable_witness :
    ∃ body, batchResponseV1
        ⟨"m", [], [], [], [], false, none, none, false, fun _ => "", [],
         false, []⟩ = some body ∧
      body.Pairwise (fun x y => weightOf [] y.source ≤ weightOf [] x.source) ∧
      (∀ k : Int, body.filter (fun x => decide (weightOf [] x.source = k)) =
        ((batchTasksV1 ⟨"m", [], [], [], [], false, none, none, false,
          fun _ => "", [], false, []⟩).flatMap Batch.results).filter
          (fun x => decide (weightOf [] x.source = k))) ∧
      body.Perm ((batchTasksV1 ⟨"m", [], [], [], [], false, none, none,
        false, fun _ => "", [], false, []⟩).flatMap Batch.results) ∧
      (∀ src : String, (∀ s ∈ ([] : List SourceCfg), s.key ≠ src) →
        weightOf [] src = 0) :=
  C4_sort_stable ⟨"m", [], [], [], [], false, none, none, false,
    fun _ => "", [], false, []⟩

/-- C5: in the first batch snapshot the content filter runs only inside
the content-API tasks, so with the filter enabled an Emby item whose
`type_name` contains a configured blocked word still reaches the merged
output. -/
theorem C5_counterexample :
    batchResponseV1 c5env = some [c5item] ∧
    c5env.disableYellowFilter = false ∧
    passesYellowFilter c5env.yellow c5item = false :=
  ⟨by decide, rfl, by decide⟩

/-- C5 (amended): in the second batch snapshot the merger removes every
blocked item from the flattened sequence of all sources, and a set flag
disables the filter entirely; in the first batch snapshot the filter runs
only inside the content-API adapter, so media-server and local-catalog
items are never filtered (`C5_counterexample`). -/
theorem C5_amended :
    (∀ (env : BatchEnvV2) (x : ResultItem),
       env.disableYellowFilter = false →
       passesYellowFilter env.yellow x = false →
       x ∉ batchResponseV2 env) ∧
    (∀ (yellow : List String) (l : List ResultItem),
       applyYellowFilter true yellow l = l) ∧
    (∀ (yellow : List String) (site : Site) (rs : List ResultItem),
       (apiTaskV1 false yellow site (some rs)).results =
         rs.filter (passesYellowFilter yellow)) ∧
    (∀ (nE : Nat) (src : EmbySource) (items : List EmbyItem),
       (embyTaskV1 nE src (some items)).results =
         items.map (embyMapItem (if nE = 1 then "emby" else "emby_" ++ src.key)
           (if nE = 1 then "Emby" else src.name) src.getImageUrl)) := by
  refine ⟨?_, fun yellow l => rfl, fun yellow site rs => rfl,
    fun nE src items => rfl⟩
  intro env x hd hp hmem
  unfold batchResponseV2 at hmem
  rw [hd] at hmem
  have hx := (sortByWeightDesc_perm _ _).mem_iff.mp hmem
  rw [applyYellowFilter] at hx
  simp only [Bool.false_eq_true, if_false] at hx
  have := (List.mem_filter.mp hx).2
  rw [hp] at this
  exact absurd this (by simp)

/-- Witness for `C5_amended` at a concrete input. -/
theorem C5_amended_witness :
    c5env2.disableYellowFilter = false ∧
    passesYellowFilter c5env2.yellow c5item = false ∧
    c5item ∉ batchResponseV2 c5env2 ∧
    applyYellowFilter true ["电影"] [c5item] = [c5item] :=
  ⟨rfl, by decide, C5_amended.1 c5env2 c5item rfl (by decide),
   C5_amended.2.1 ["电影"] [c5item]⟩

/-- C6: after the global deadline has elapsed, a task that was already
running and then completes still has its full result written to the
stream — the claim that "their eventual results are ignored by the
consumer" fails in streaming mode (the emission path checks only
`streamClosed`, never `isTimeExceeded`). -/
theorem C6_counterexample :
    (wsRun "q" 2 [WsAct.timeExpire,
      WsAct.taskCompletes (WsOutcome.apiOk "a" "SiteA" [c6item])]).timeExpired
      = true ∧
    (wsRun "q" 2 [WsAct.timeExpire,
      WsAct.taskCompletes (WsOutcome.apiOk "a" "SiteA" [c6item])]).events =
      [WsEvent.start "q" 2, WsEvent.source_result "a" "SiteA" [c6item]] :=
  ⟨by decide, by decide⟩

/-- C6 (amended): the global deadline (25 s) is longer than every
per-task timeout; once it has elapsed no new task body is started
(streaming scheduler) and whole phases of results are dropped (V2 batch
route); already-running tasks are not cancelled — they still complete and
settle; but in streaming mode their events are still written
(`C6_counterexample`), so "ignored by the consumer" holds only for the V2
batch route. -/
theorem C6_amended (n limit : Nat) :
    (SEARCH_TIMEOUT_MS < MAX_TOTAL_TIME_MS ∧
     EMBY_SEARCH_TIMEOUT_MS < MAX_TOTAL_TIME_MS ∧
     OPENLIST_SEARCH_TIMEOUT_MS < MAX_TOTAL_TIME_MS) ∧
    (∀ (acts : List LimAct) (s : LimState), s.expired = true →
      (acts.foldl (limStep n limit) s).startedTasks = s.startedTasks) ∧
    (∀ (s : LimState) (i : Nat), s.expired = true → i ∈ s.runningTasks →
      (limStep n limit s (LimAct.taskDone i)).settledWrappers =
        s.settledWrappers ++ [i] ∧
      (limStep n limit s (LimAct.taskDone i)).runningTasks =
        s.runningTasks.erase i) ∧
    (∀ (o : List ResultItem) (emb api api' : List (List ResultItem)) (e1 e2 : Bool),
      batchCollectV2 o emb api e1 e2 true = batchCollectV2 o emb api' e1 e2 true) ∧
    (∀ (o : List ResultItem) (emb emb' api : List (List ResultItem)) (e1 e3 : Bool),
      batchCollectV2 o emb api e1 true e3 = batchCollectV2 o emb' api e1 true e3) ∧
    (∀ (o o' : List ResultItem) (emb api : List (List ResultItem)) (e2 e3 : Bool),
      batchCollectV2 o emb api true e2 e3 = batchCollectV2 o' emb api true e2 e3) := by
  refine ⟨by decide, ?_, ?_, fun o emb api api' e1 e2 => rfl,
    fun o emb emb' api e1 e3 => rfl, fun o o' emb api e2 e3 => rfl⟩
  · intro acts s h
    exact limRun_no_start_after_expired n limit acts s h
  · intro s i hexp hm
    simp only [limStep, if_pos hm]
    refine ⟨?_, ?_⟩ <;> trivial

/-- Witness for `C6_amended` at concrete inputs. -/
theorem C6_amended_witness :
    SEARCH_TIMEOUT_MS < MAX_TOTAL_TIME_MS ∧
    (([LimAct.mainStep, LimAct.runWrapper].foldl (limStep 2 1)
      { limInit with expired := true }).startedTasks =
      ({ limInit with expired := true } : LimState).startedTasks) :=
  ⟨(C6_amended 2 1).1.1,
   (C6_amended 2 1).2.1 [LimAct.mainStep, LimAct.runWrapper]
     { limInit with expired := true } rfl⟩

set_option maxRecDepth 100000 in
/-- C7: the first batch snapshot's OpenList scan has NO cap on the number
of index entries examined: on a 501-entry index with one late match it
examines all 501 entries (the claim says a fixed cap — 500 in the other
two adapters — bounds the scan regardless of index size). -/
theorem C7_counterexample :
    (openlistScanV1 (fun _ => "") "zz" c7entries).2 = 501 ∧
    (openlistScanV2 (fun _ => "") "zz" c7entries).2 ≤ 500 ∧
    500 < (openlistScanV1 (fun _ => "") "zz" c7entries).2 :=
  ⟨by decide, by decide, by decide⟩

/-- C7 (amended): each OpenList adapter returns exactly the items whose
folder name or title contains the query case-insensitively, truncated at
the per-source result cap, and stops scanning the moment the cap is
reached; the 500-entry scan cap exists in the second batch snapshot and in
the ws route, but NOT in the first batch snapshot (`C7_counterexample`);
a cold in-memory cache falls back to the persistent store. -/
theorem C7_amended (g : String → String) (q : String)
    (folders extra : List (String × FolderInfo)) (stored : Option MetaInfo) :
    ((openlistScanV1 g q folders).1 =
      ((folders.filter (matchesEntryBatch (strLower q))).map
        (fun e => itemOfFolder g e.1 e.2)).take MAX_RESULTS_PER_SOURCE) ∧
    ((openlistScanV2 g q folders).1 =
      (((folders.take 500).filter (matchesEntryBatch (strLower q))).map
        (fun e => itemOfFolder g e.1 e.2)).take MAX_RESULTS_PER_SOURCE) ∧
    ((openlistScanWs g q folders).1 =
      (((folders.take 500).filter (matchesEntryWs (strLower q))).map
        (fun e => itemOfFolder g e.1 e.2)).take MAX_RESULTS_PER_SOURCE_WS) ∧
    ((openlistScanV2 g q folders).2 ≤ 500 ∧
     (openlistScanWs g q folders).2 ≤ 500) ∧
    (MAX_RESULTS_PER_SOURCE ≤
        (folders.filter (matchesEntryBatch (strLower q))).length →
      openlistScanV1 g q (folders ++ extra) = openlistScanV1 g q folders) ∧
    (loadMetaInfo none stored = stored ∧
     ∀ m, loadMetaInfo (some m) stored = some m) := by
  refine ⟨?_, ?_, ?_, ⟨?_, ?_⟩, ?_, rfl, fun m => rfl⟩
  · have h := scanGo_results_eq (matchesEntryBatch (strLower q))
      (fun e => itemOfFolder g e.1 e.2) MAX_RESULTS_PER_SOURCE folders []
      (by decide)
    simpa using h
  · have h := scanGo_results_eq (matchesEntryBatch (strLower q))
      (fun e => itemOfFolder g e.1 e.2) MAX_RESULTS_PER_SOURCE
      (folders.take 500) [] (by decide)
    simpa using h
  · have h := scanGo_results_eq (matchesEntryWs (strLower q))
      (fun e => itemOfFolder g e.1 e.2) MAX_RESULTS_PER_SOURCE_WS
      (folders.take 500) [] (by decide)
    simpa using h
  · exact le_trans (scanGo_examined_le _ _ _ _ _)
      (le_trans (le_of_eq (List.length_take 500 folders)) (min_le_left _ _))
  · exact le_trans (scanGo_examined_le _ _ _ _ _)
      (le_trans (le_of_eq (List.length_take 500 folders)) (min_le_left _ _))
  · intro hcap
    exact scanGo_stops _ _ MAX_RESULTS_PER_SOURCE folders [] extra
      (by decide) (by simpa using hcap)

/-- Witness for `C7_amended` at concrete inputs. -/
theorem C7_amended_witness :
    ((openlistScanV1 (fun _ => "") "zz" [("zz", c7info)]).1 =
      (([("zz", c7info)].filter (matchesEntryBatch (strLower "zz"))).map
        (fun e => itemOfFolder (fun _ => "") e.1 e.2)).take
        MAX_RESULTS_PER_SOURCE) ∧
    (openlistScanV2 (fun _ => "") "zz" [("zz", c7info)]).2 ≤ 500 ∧
    loadMetaInfo none (some ⟨[]⟩) = some ⟨[]⟩ := by
  have h := C7_amended (fun _ => "") "zz" [("zz", c7info)] [] (some ⟨[]⟩)
  exact ⟨h.1, h.2.2.2.1.1, h.2.2.2.2.2.1⟩

/-- C8: with a valid principal and an empty or absent `q`, the V1 batch
handler responds `{ results: [] }` with the long-lived cache headers
immediately, and zero search tasks are created — no source is contacted. -/
theorem C8_empty_query (user : String) (query : Option String)
    (cacheTime : Nat) (env : BatchEnvV1)
    (h : query = none ∨ query = some "") :
    getV1 (some user) query cacheTime env =
      (BatchResponse.emptyCached cacheTime, 0) := by
  rcases h with rfl | rfl <;> rfl

/-- Witness for `C8_empty_query` at a concrete input. -/
theorem C8_empty_query_witness :
    ((some "" : Option String) = none ∨ (some "" : Option String) = some "") ∧
    getV1 (some "alice") (some "") 300 c8env =
      (BatchResponse.emptyCached 300, 0) :=
  ⟨Or.inr rfl, C8_empty_query "alice" (some "") 300 c8env (Or.inr rfl)⟩

/-- C9: once the consumer disconnects (the `streamClosed` flag is set), no
continuation of the streaming run writes any further event; a write that
cannot be delivered is terminal — once the controller is gone no later
write ever succeeds (and no retry exists); and the scheduler starts no new
task body once the flag is observed. -/
theorem C9_closed_no_writes (total n limit : Nat) (acts : List WsAct)
    (lacts : List LimAct) (s : WsState) (ls : LimState)
    (hc : s.streamClosed = true) (hd : ls.closed = true) :
    (acts.foldl (wsStep total) s).events = s.events ∧
    (∀ s' : WsState, s'.controllerDown = true →
      (acts.foldl (wsStep total) s').events = s'.events) ∧
    (lacts.foldl (limStep n limit) ls).startedTasks = ls.startedTasks :=
  ⟨wsFold_closed total acts s hc,
   fun s' h' => wsFold_down total acts s' h',
   limRun_no_start_after_closed n limit lacts ls hd⟩

/-- Witness for `C9_closed_no_writes` at concrete inputs. -/
theorem C9_closed_no_writes_witness :
    (([WsAct.taskCompletes (WsOutcome.apiOk "a" "A" [])].foldl (wsStep 1)
      ⟨true, false, false, 0, [], [WsEvent.start "q" 1], false⟩).events =
      (⟨true, false, false, 0, [], [WsEvent.start "q" 1], false⟩ : WsState).events) ∧
    (([LimAct.mainStep, LimAct.runWrapper].foldl (limStep 1 1)
      { limInit with closed := true }).startedTasks =
      ({ limInit with closed := true } : LimState).startedTasks) := by
  have h := C9_closed_no_writes 1 1 1
    [WsAct.taskCompletes (WsOutcome.apiOk "a" "A" [])]
    [LimAct.mainStep, LimAct.runWrapper]
    ⟨true, false, false, 0, [], [WsEvent.start "q" 1], false⟩
    { limInit with closed := true } rfl rfl
  exact ⟨h.1, h.2.2⟩

/-- C10: the V1 scheduler stores every task's value at its submission
index (the trace below runs them in submission order) and only filters out
`undefined` slots, so the flattened pre-sort sequence is always the
OpenList-then-Emby-then-API submission order, and two runs with equal
per-task batches and equal weights produce identical merged output. -/
theorem C10_submission_order (env env' : BatchEnvV1) :
    runWithConcurrencyControl ((batchTasksV1 env).map some) MAX_CONCURRENT =
      some (batchTasksV1 env, pairTrace 0 (batchTasksV1 env).length) ∧
    batchResponseV1 env = some (sortByWeightDesc (weightOf env.sourceConfig)
      ((batchTasksV1 env).flatMap Batch.results)) ∧
    (batchTasksV1 env = batchTasksV1 env' →
     weightOf env.sourceConfig = weightOf env'.sourceConfig →
     batchResponseV1 env = batchResponseV1 env') := by
  refine ⟨?_, batchResponseV1_eq env, ?_⟩
  · rw [runWithConcurrencyControl_eq _ MAX_CONCURRENT (by decide)]
    simp [List.filterMap_map, Function.comp]
  · intro ht hw
    rw [batchResponseV1_eq env, batchResponseV1_eq env', ht, hw]

/-- Witness for `C10_submission_order` at a concrete environment. -/
theorem C10_submission_order_witness :
    runWithConcurrencyControl
      ((batchTasksV1 ⟨"w", [⟨"s1", "S1"⟩], [some [c6item]], [], [], false,
        none, none, false, fun _ => "", [], true, []⟩).map some)
      MAX_CONCURRENT =
      some (batchTasksV1 ⟨"w", [⟨"s1", "S1"⟩], [some [c6item]], [], [],
        false, none, none, false, fun _ => "", [], true, []⟩,
        pairTrace 0 (batchTasksV1 ⟨"w", [⟨"s1", "S1"⟩], [some [c6item]],
          [], [], false, none, none, false, fun _ => "", [], true,
          []⟩).length) := by
  have h := C10_submission_order
    ⟨"w", [⟨"s1", "S1"⟩], [some [c6item]], [], [], false, none, none,
      false, fun _ => "", [], true, []⟩
    ⟨"w", [⟨"s1", "S1"⟩], [some [c6item]], [], [], false, none, none,
      false, fun _ => "", [], true, []⟩
  exact h.1
